import Mathlib

/-!
Verification of the `agentable/jsonpath` Go library (RFC 9535 JSONPath)
against its natural-language specification.

The Go sources are shallowly embedded:

* Go `any` JSON/filter values become the inductive `GoVal`; the Go interface
  value `nil` (a document `null` and the "no value" result of function calls)
  is `GoVal.nilV`, the `ast.jsonNull{}` sentinel (a literal `null` in a query)
  is `GoVal.jnullV`, and the `ast.nothing{}` sentinel is `GoVal.nothingV`.
* Go `int64` arithmetic is modelled with `ℤ` (the parser restricts indices to
  `±(2^53-1)`, so no `int64` overflow is reachable in the modelled code) and
  Go `float64` with `ℚ` (number comparisons in the modelled claims never
  depend on rounding).
* Go maps (`map[string]any`) are association lists in iteration order; Go
  leaves map iteration order unspecified, so list-level results here
  correspond to one admissible run of the Go code.
* Loops that walk `for i := start; i < end; i += step` are embedded as
  fuel-indexed structural recursions; the fuel supplied at each call site
  (`(e - i).toNat`) dominates the iteration count because `|step| ≥ 1`, so
  the embedded loop performs exactly the iterations of the Go loop.
-/

namespace JPGo

/-- Model of Go `any` values flowing through the evaluator: JSON documents
(`nilV`/`boolV`/`intV`/`floatV`/`strV`/`arrV`/`objV`) plus the two sentinels
of `internal/ast` (`nothing{}` → `nothingV`, `jsonNull{}` → `jnullV`).
A Go `[]any` node list is an `arrV`, exactly as in Go where a node list is
an ordinary `[]any` value. -/
inductive GoVal where
  | nilV
  | boolV (b : Bool)
  | intV (n : ℤ)
  | floatV (q : ℚ)
  | strV (s : String)
  | arrV (xs : List GoVal)
  | objV (kvs : List (String × GoVal))
  | nothingV
  | jnullV
  deriving Repr

/-- `ast.SliceArgs`: optional start/end/step of a slice selector.
Go field `End` is rendered `stop`. -/
structure SliceArgs where
  start : ℤ := 0
  stop : ℤ := 0
  step : ℤ := 0
  hasStart : Bool := false
  hasEnd : Bool := false
  hasStep : Bool := false
  deriving Repr, DecidableEq

/-- The loop `for i := start; i < end; i += step` (positive step), returning
the visited indices. Fuel-indexed; callers pass `(e - i).toNat`, which is an
upper bound on the iteration count since `step ≥ 1`. -/
def iterUp : ℕ → ℤ → ℤ → ℤ → List ℤ
  | 0, _, _, _ => []
  | f + 1, e, step, i =>
    if 0 < step ∧ i < e then i :: iterUp f e step (i + step) else []

/-- The loop `for i := start; i > end; i += step` (negative step), returning
the visited indices. Fuel-indexed; callers pass `(i - e).toNat`. -/
def iterDown : ℕ → ℤ → ℤ → ℤ → List ℤ
  | 0, _, _, _ => []
  | f + 1, e, step, i =>
    if step < 0 ∧ e < i then i :: iterDown f e step (i + step) else []

/-- `normalizeSliceBounds` from `jsonpath.go`: one-time normalization of
negative indices and direction-dependent partial clamping. -/
def normalizeSliceBounds (start e step : ℤ) (length : ℕ) : ℤ × ℤ :=
  let L : ℤ := length
  let start' :=
    if start < 0 then
      (if start + L < 0 then (if 0 < step then 0 else start + L) else start + L)
    else if L ≤ start then (if step < 0 then L - 1 else start)
    else start
  let e' :=
    if e < 0 then
      (if e + L < 0 ∧ step < 0 then -1 else e + L)
    else if L < e then L
    else e
  (start', e')

/-- `sliceIndices` from `jsonpath.go` (the top-level evaluator's slice): step
defaulting, `normalizeSliceBounds`, then the bounded loop. The Go loop guards
each append with `i >= 0 && i < length`; that guard is the `filter` here. -/
def sliceIndices (args : SliceArgs) (length : ℕ) : List ℤ :=
  if length = 0 then [] else
  let step := if args.hasStep then args.step else 1
  if step = 0 then [] else
  let start :=
    if 0 < step then (if args.hasStart then args.start else 0)
    else (if args.hasStart then args.start else (length : ℤ) - 1)
  let e :=
    if 0 < step then (if args.hasEnd then args.stop else (length : ℤ))
    else (if args.hasEnd then args.stop else -(length : ℤ) - 1)
  let p := normalizeSliceBounds start e step length
  if 0 < step then
    (iterUp (p.2 - p.1).toNat p.2 step p.1).filter
      (fun i => decide (0 ≤ i) && decide (i < (length : ℤ)))
  else
    (iterDown (p.1 - p.2).toNat p.2 step p.1).filter
      (fun i => decide (0 ≤ i) && decide (i < (length : ℤ)))

/-- `Selector.applySlice` from `internal/ast` (the evaluator used inside
filter expressions), rendered as the list of selected indices: defaults by
step sign, one-time normalization, then full clamping (for positive step into
`[0, L]`; for negative step `start` into `[0, L-1]` and `end` into
`[-1, L-1]`) and the loop, which in this variant has no per-index guard. -/
def astSliceIndices (args : SliceArgs) (length : ℕ) : List ℤ :=
  if length = 0 then [] else
  let L : ℤ := length
  let step := if args.hasStep then args.step else 1
  if step = 0 then [] else
  let start0 := if args.hasStart then args.start else (if 0 < step then 0 else L - 1)
  let e0 := if args.hasEnd then args.stop else (if 0 < step then L else -L - 1)
  let start1 := if start0 < 0 then start0 + L else start0
  let e1 := if e0 < 0 then e0 + L else e0
  if 0 < step then
    let start2 := if start1 < 0 then 0 else if L < start1 then L else start1
    let e2 := if e1 < 0 then 0 else if L < e1 then L else e1
    iterUp (e2 - start2).toNat e2 step start2
  else
    let start2 := if start1 < 0 then 0 else if L ≤ start1 then L - 1 else start1
    let e2 := if e1 < -1 then -1 else if L ≤ e1 then L - 1 else e1
    iterDown (start2 - e2).toNat e2 step start2

/-- The slice procedure in the words of claim C2 as amended: defaults, a
single `+L` normalization of negative bounds, clamping (`step > 0`: both
bounds into `[0, L]`; `step < 0`: start into `[-1, L-1]` — the amendment —
and end into `[-1, L-1]`), then plain iteration. -/
def specSliceIndices (args : SliceArgs) (length : ℕ) : List ℤ :=
  let L : ℤ := length
  let step := if args.hasStep then args.step else 1
  if step = 0 then [] else
  let start0 := if args.hasStart then args.start else (if 0 < step then 0 else L - 1)
  let e0 := if args.hasEnd then args.stop else (if 0 < step then L else -L - 1)
  let start1 := if start0 < 0 then start0 + L else start0
  let e1 := if e0 < 0 then e0 + L else e0
  if 0 < step then
    let s := max 0 (min start1 L)
    let e := max 0 (min e1 L)
    iterUp (e - s).toNat e step s
  else
    let s := max (-1) (min start1 (L - 1))
    let e := max (-1) (min e1 (L - 1))
    iterDown (s - e).toNat e step s

/-- The slice procedure exactly in the words of claim C2 as stated: like
`specSliceIndices` but with the negative-step start clamped into `[0, L-1]`. -/
def claimSliceIndices (args : SliceArgs) (length : ℕ) : List ℤ :=
  let L : ℤ := length
  let step := if args.hasStep then args.step else 1
  if step = 0 then [] else
  let start0 := if args.hasStart then args.start else (if 0 < step then 0 else L - 1)
  let e0 := if args.hasEnd then args.stop else (if 0 < step then L else -L - 1)
  let start1 := if start0 < 0 then start0 + L else start0
  let e1 := if e0 < 0 then e0 + L else e0
  if 0 < step then
    let s := max 0 (min start1 L)
    let e := max 0 (min e1 L)
    iterUp (e - s).toNat e step s
  else
    let s := max 0 (min start1 (L - 1))
    let e := max (-1) (min e1 (L - 1))
    iterDown (s - e).toNat e step s

/-! ### Loop lemmas -/

theorem iterUp_nil {f : ℕ} {e step i : ℤ} (h : e ≤ i ∨ step ≤ 0) :
    iterUp f e step i = [] := by
  cases f with
  | zero => rfl
  | succ f => rw [iterUp, if_neg (by omega)]

theorem iterDown_nil {f : ℕ} {e step i : ℤ} (h : i ≤ e ∨ 0 ≤ step) :
    iterDown f e step i = [] := by
  cases f with
  | zero => rfl
  | succ f => rw [iterDown, if_neg (by omega)]

theorem mem_iterUp {f : ℕ} {e step i j : ℤ} (h : j ∈ iterUp f e step i) :
    i ≤ j ∧ j < e := by
  induction f generalizing i with
  | zero => simp [iterUp] at h
  | succ f ih =>
    rw [iterUp] at h
    by_cases hc : 0 < step ∧ i < e
    · rw [if_pos hc] at h
      rcases List.mem_cons.mp h with rfl | h2
      · exact ⟨le_refl _, hc.2⟩
      · have := ih h2
        omega
    · rw [if_neg hc] at h
      simp at h

theorem mem_iterDown {f : ℕ} {e step i j : ℤ} (h : j ∈ iterDown f e step i) :
    e < j ∧ j ≤ i := by
  induction f generalizing i with
  | zero => simp [iterDown] at h
  | succ f ih =>
    rw [iterDown] at h
    by_cases hc : step < 0 ∧ e < i
    · rw [if_pos hc] at h
      rcases List.mem_cons.mp h with rfl | h2
      · exact ⟨hc.2, le_refl _⟩
      · have := ih h2
        omega
    · rw [if_neg hc] at h
      simp at h

theorem filter_iterUp_eq {f : ℕ} {e step i L : ℤ} (h0 : 0 ≤ i) (hL : e ≤ L) :
    (iterUp f e step i).filter (fun j => decide (0 ≤ j) && decide (j < L)) =
      iterUp f e step i := by
  apply List.filter_eq_self.mpr
  intro j hj
  have := mem_iterUp hj
  simp only [Bool.and_eq_true, decide_eq_true_eq]
  omega

theorem filter_iterDown_eq {f : ℕ} {e step i L : ℤ} (h0 : -1 ≤ e) (hL : i ≤ L - 1) :
    (iterDown f e step i).filter (fun j => decide (0 ≤ j) && decide (j < L)) =
      iterDown f e step i := by
  apply List.filter_eq_self.mpr
  intro j hj
  have := mem_iterDown hj
  simp only [Bool.and_eq_true, decide_eq_true_eq]
  omega

/-! ### Equivalence of `sliceIndices` with the clamped-bounds procedures -/

theorem normalizeSliceBounds_fst_pos (s0 e0 step : ℤ) (L : ℕ) (hstep : 0 < step) :
    (normalizeSliceBounds s0 e0 step L).1 = max 0 (if s0 < 0 then s0 + L else s0) := by
  unfold normalizeSliceBounds
  simp only
  split_ifs <;> omega

theorem normalizeSliceBounds_snd_pos (s0 e0 step : ℤ) (L : ℕ) (hstep : 0 < step) :
    (normalizeSliceBounds s0 e0 step L).2 =
      (if e0 < 0 then e0 + L else min e0 L) := by
  unfold normalizeSliceBounds
  simp only
  split_ifs <;> omega

theorem normalizeSliceBounds_fst_neg (s0 e0 step : ℤ) (L : ℕ) (hstep : step < 0) :
    (normalizeSliceBounds s0 e0 step L).1 =
      (if s0 < 0 then s0 + L else min s0 (L - 1)) := by
  unfold normalizeSliceBounds
  simp only
  split_ifs <;> omega

theorem normalizeSliceBounds_snd_neg (s0 e0 step : ℤ) (L : ℕ) (hstep : step < 0) :
    (normalizeSliceBounds s0 e0 step L).2 =
      (if e0 < 0 then max (e0 + L) (-1) else min e0 L) := by
  unfold normalizeSliceBounds
  simp only
  split_ifs <;> omega

/-- Positive step: the partially-clamped code bounds followed by the in-loop
range guard select the same indices as the fully clamped bounds. -/
theorem slice_pos_eq (L : ℕ) (hL : 0 < L) (step s0 e0 : ℤ) (hstep : 0 < step) :
    ((iterUp ((normalizeSliceBounds s0 e0 step L).2 - (normalizeSliceBounds s0 e0 step L).1).toNat
        (normalizeSliceBounds s0 e0 step L).2 step (normalizeSliceBounds s0 e0 step L).1).filter
      (fun i => decide (0 ≤ i) && decide (i < (L : ℤ)))) =
    iterUp (max 0 (min (if e0 < 0 then e0 + L else e0) L) -
        max 0 (min (if s0 < 0 then s0 + L else s0) L)).toNat
      (max 0 (min (if e0 < 0 then e0 + L else e0) L)) step
      (max 0 (min (if s0 < 0 then s0 + L else s0) L)) := by
  rw [normalizeSliceBounds_fst_pos s0 e0 step L hstep,
    normalizeSliceBounds_snd_pos s0 e0 step L hstep]
  set ns : ℤ := if s0 < 0 then s0 + L else s0 with hns
  set ne : ℤ := if e0 < 0 then e0 + L else e0 with hne
  have hnsv : ns = if s0 < 0 then s0 + L else s0 := hns
  have hnev : ne = if e0 < 0 then e0 + L else e0 := hne
  by_cases h1 : ne < 0
  · -- the code end bound stays negative; both loops are empty
    have he0 : e0 < 0 := by
      by_contra hc
      rw [hnev, if_neg (by omega)] at h1
      omega
    have hlt : ne < (L : ℤ) := by rw [hnev, if_pos he0]; omega
    rw [if_pos he0, ← hnev.symm]
    rw [iterUp_nil (.inl (by omega : (e0 + L : ℤ) ≤ max 0 ns)),
      iterUp_nil (.inl (by omega : max 0 (min ne L) ≤ max 0 (min ns L)))]
    simp
  · -- ne ≥ 0: the code end bound is min ne L
    have hce : (if e0 < 0 then e0 + (L : ℤ) else min e0 L) = min ne L := by
      by_cases he0 : e0 < 0
      · rw [if_pos he0, hnev, if_pos he0]
        omega
      · rw [if_neg he0, hnev, if_neg he0]
    rw [hce]
    have hse : max 0 (min ne (L : ℤ)) = min ne L := by omega
    rw [hse]
    by_cases h2 : ns ≤ (L : ℤ)
    · have h3 : max 0 (min ns (L : ℤ)) = max 0 ns := by omega
      rw [h3, filter_iterUp_eq (by omega) (by omega)]
    · rw [iterUp_nil (.inl (by omega : min ne (L : ℤ) ≤ max 0 ns)),
        iterUp_nil (.inl (by omega : min ne (L : ℤ) ≤ max 0 (min ns L)))]
      simp

/-- Negative step: the partially-clamped code bounds with the in-loop guard
agree with the `[-1, L-1]`-clamped start (the amended claim). -/
theorem slice_neg_eq (L : ℕ) (hL : 0 < L) (step s0 e0 : ℤ) (hstep : step < 0) :
    ((iterDown ((normalizeSliceBounds s0 e0 step L).1 - (normalizeSliceBounds s0 e0 step L).2).toNat
        (normalizeSliceBounds s0 e0 step L).2 step (normalizeSliceBounds s0 e0 step L).1).filter
      (fun i => decide (0 ≤ i) && decide (i < (L : ℤ)))) =
    iterDown (max (-1) (min (if s0 < 0 then s0 + L else s0) (L - 1)) -
        max (-1) (min (if e0 < 0 then e0 + L else e0) (L - 1))).toNat
      (max (-1) (min (if e0 < 0 then e0 + L else e0) (L - 1))) step
      (max (-1) (min (if s0 < 0 then s0 + L else s0) (L - 1))) := by
  rw [normalizeSliceBounds_fst_neg s0 e0 step L hstep,
    normalizeSliceBounds_snd_neg s0 e0 step L hstep]
  set ns : ℤ := if s0 < 0 then s0 + L else s0 with hns
  set ne : ℤ := if e0 < 0 then e0 + L else e0 with hne
  have hnsv : ns = if s0 < 0 then s0 + L else s0 := hns
  have hnev : ne = if e0 < 0 then e0 + L else e0 := hne
  by_cases h1 : (L : ℤ) ≤ ne
  · -- end bound at least L: both loops are empty
    have he0 : ¬ e0 < 0 := by
      intro hc
      rw [hnev, if_pos hc] at h1
      omega
    have hcend : (if e0 < 0 then max (e0 + (L : ℤ)) (-1) else min e0 L) = (L : ℤ) := by
      rw [if_neg he0]
      rw [hnev, if_neg he0] at h1
      omega
    rw [hcend]
    have hcs : (if s0 < 0 then s0 + (L : ℤ) else min s0 (L - 1)) ≤ (L : ℤ) := by
      split_ifs <;> omega
    rw [iterDown_nil (.inl hcs),
      iterDown_nil (.inl (by omega :
        max (-1) (min ns ((L : ℤ) - 1)) ≤ max (-1) (min ne ((L : ℤ) - 1))))]
    simp
  · -- ne ≤ L - 1: the code end bound equals the clamped end bound
    have hce : (if e0 < 0 then max (e0 + (L : ℤ)) (-1) else min e0 L) =
        max (-1) (min ne ((L : ℤ) - 1)) := by
      by_cases he0 : e0 < 0
      · rw [if_pos he0, hnev, if_pos he0]
        omega
      · rw [if_neg he0, hnev, if_neg he0]
        omega
    rw [hce]
    by_cases h2 : ns < 0
    · -- start stayed negative in the code: both loops are empty
      have hs0 : s0 < 0 := by
        by_contra hc
        rw [hnsv, if_neg (by omega)] at h2
        omega
      have hcs : (if s0 < 0 then s0 + (L : ℤ) else min s0 (L - 1)) = ns := by
        rw [if_pos hs0, hnsv, if_pos hs0]
      rw [hcs]
      rw [iterDown_nil (.inl (by omega : ns ≤ max (-1) (min ne ((L : ℤ) - 1)))),
        iterDown_nil (.inl (by omega :
          max (-1) (min ns ((L : ℤ) - 1)) ≤ max (-1) (min ne ((L : ℤ) - 1))))]
      simp
    · -- start nonnegative: code start equals clamped start, guard is vacuous
      have hcs : (if s0 < 0 then s0 + (L : ℤ) else min s0 (L - 1)) =
          max (-1) (min ns ((L : ℤ) - 1)) := by
        by_cases hs0 : s0 < 0
        · rw [if_pos hs0, hnsv, if_pos hs0]
          rw [hnsv, if_pos hs0] at h2
          omega
        · rw [if_neg hs0, hnsv, if_neg hs0]
          omega
      rw [hcs, filter_iterDown_eq (by omega) (by omega)]

theorem sliceIndices_eq_specSliceIndices (args : SliceArgs) (L : ℕ) :
    sliceIndices args L = specSliceIndices args L := by
  simp only [sliceIndices, specSliceIndices]
  by_cases hL : L = 0
  · subst hL
    rw [if_pos rfl]
    by_cases hstep : (if args.hasStep then args.step else 1) = 0
    · rw [if_pos hstep]
    · rw [if_neg hstep]
      by_cases hpos : 0 < (if args.hasStep then args.step else 1)
      · rw [if_pos hpos]
        symm
        apply iterUp_nil
        omega
      · rw [if_neg hpos]
        symm
        apply iterDown_nil
        omega
  · rw [if_neg hL]
    by_cases hstep : (if args.hasStep then args.step else 1) = 0
    · simp only [if_pos hstep]
    · simp only [if_neg hstep]
      by_cases hpos : 0 < (if args.hasStep then args.step else 1)
      · simp only [if_pos hpos]
        exact slice_pos_eq L (by omega) _ _ _ hpos
      · simp only [if_neg hpos]
        exact slice_neg_eq L (by omega) _ _ _ (by omega)

theorem specSliceIndices_zero (args : SliceArgs) : specSliceIndices args 0 = [] := by
  simp only [specSliceIndices]
  by_cases hstep : (if args.hasStep then args.step else 1) = 0
  · rw [if_pos hstep]
  · rw [if_neg hstep]
    by_cases hpos : 0 < (if args.hasStep then args.step else 1)
    · rw [if_pos hpos]
      apply iterUp_nil
      omega
    · rw [if_neg hpos]
      apply iterDown_nil
      omega

/-- The `ast` slice agrees with the clamped-bounds procedure whenever the
effective step is positive, or the start is absent or at least `-1`. -/
theorem astSliceIndices_eq_spec (args : SliceArgs) (L : ℕ)
    (h : 0 < (if args.hasStep then args.step else 1) ∨
      args.hasStart = false ∨ -1 ≤ args.start) :
    astSliceIndices args L = specSliceIndices args L := by
  by_cases hL : L = 0
  · subst hL
    rw [specSliceIndices_zero]
    simp [astSliceIndices]
  · simp only [astSliceIndices, specSliceIndices]
    rw [if_neg hL]
    by_cases hstep : (if args.hasStep then args.step else 1) = 0
    · simp only [if_pos hstep]
    · simp only [if_neg hstep]
      by_cases hpos : 0 < (if args.hasStep then args.step else 1)
      · simp only [if_pos hpos]
        congr 1 <;> omega
      · simp only [if_neg hpos]
        rcases h with h | h | h
        · omega
        · simp only [h, Bool.false_eq_true, if_false]
          congr 1 <;> omega
        · by_cases hs : args.hasStart
          · simp only [if_pos hs]
            congr 1 <;> omega
          · simp only [if_neg hs]
            congr 1 <;> omega

/-- The two slice implementations agree under the side condition of the
amended claim C9. -/
theorem sliceIndices_eq_astSliceIndices (args : SliceArgs) (L : ℕ)
    (h : 0 < (if args.hasStep then args.step else 1) ∨
      args.hasStart = false ∨ -1 ≤ args.start) :
    sliceIndices args L = astSliceIndices args L := by
  rw [sliceIndices_eq_specSliceIndices, astSliceIndices_eq_spec args L h]

/-! ### The filter comparison engine (`internal/ast`): `sameType`, `lessThan`,
`equalTo`, `CompExpr.Eval`. `equalTo` recurses into arrays and objects; the
recursion is embedded with a nesting-depth fuel that is consumed only when
descending into a container, so on non-container operands the result is
fuel-independent. -/

/-- Go type test `_, ok := v.(nothing)`. -/
def isNothing : GoVal → Bool
  | .nothingV => true
  | _ => false

/-- Go type test `_, ok := v.(jsonNull)`. -/
def isJSONNull : GoVal → Bool
  | .jnullV => true
  | _ => false

/-- Go interface comparison `v == nil`. -/
def isGoNil : GoVal → Bool
  | .nilV => true
  | _ => false

/-- `isNumeric` from `internal/ast`: Go int and float kinds. -/
def isNumeric : GoVal → Bool
  | .intV _ => true
  | .floatV _ => true
  | _ => false

/-- `toFloat64` from `internal/ast` (non-numeric values map to 0). -/
def toFloat : GoVal → ℚ
  | .intV n => (n : ℚ)
  | .floatV q => q
  | _ => 0

/-- Go interface equality `a == b` for the value kinds that can reach the
final branch of `equalTo` (strings and booleans; all other kinds were
dispatched earlier). -/
def primEq : GoVal → GoVal → Bool
  | .strV a, .strV b => a == b
  | .boolV a, .boolV b => a == b
  | _, _ => false

/-- `sameType` from `internal/ast`. -/
def sameType (a b : GoVal) : Bool :=
  if isNothing a then false
  else if isNothing b then false
  else
    let aNull := isJSONNull a || isGoNil a
    let bNull := isJSONNull b || isGoNil b
    if aNull || bNull then aNull && bNull
    else if isNumeric a && isNumeric b then true
    else
      match a, b with
      | .strV _, .strV _ => true
      | .boolV _, .boolV _ => true
      | _, _ => false

/-- `lessThan` from `internal/ast`. -/
def lessThan (a b : GoVal) : Bool :=
  if isGoNil a || isGoNil b then false
  else if isNumeric a && isNumeric b then decide (toFloat a < toFloat b)
  else
    match a, b with
    | .strV sa, .strV sb => decide (sa < sb)
    | _, _ => false

/-- `equalTo` from `internal/ast`, with container-descent fuel. -/
def equalToF (f : ℕ) (a b : GoVal) : Bool :=
  let aNo := isNothing a || (isGoNil a && !isJSONNull a && !isJSONNull b)
  let bNo := isNothing b || (isGoNil b && !isJSONNull a && !isJSONNull b)
  if aNo && bNo then true
  else if aNo || bNo then false
  else if (isJSONNull a && isGoNil b) || (isGoNil a && isJSONNull b) ||
      (isJSONNull a && isJSONNull b) then true
  else if isJSONNull a || isJSONNull b then false
  else if isNumeric a && isNumeric b then decide (toFloat a = toFloat b)
  else
    match a, b with
    | .arrV xs, .arrV ys =>
      (match f with
       | 0 => false
       | f + 1 => xs.length == ys.length && (xs.zip ys).all fun p => equalToF f p.1 p.2)
    | .objV xs, .objV ys =>
      (match f with
       | 0 => false
       | f + 1 => xs.length == ys.length &&
           (xs.all fun kv =>
             match ys.lookup kv.1 with
             | some bv => equalToF f kv.2 bv
             | none => false))
    | .arrV _, _ => false
    | _, .arrV _ => false
    | .objV _, _ => false
    | _, .objV _ => false
    | _, _ => primEq a b

/-- The comparison operators of `internal/ast`. -/
inductive CompOp where
  | eq | ne | lt | le | gt | ge
  deriving Repr, DecidableEq

/-- The operator dispatch of `CompExpr.Eval` from `internal/ast`, applied to
already-evaluated operand values. -/
def compExprEval (f : ℕ) (op : CompOp) (l r : GoVal) : Bool :=
  match op with
  | .eq => equalToF f l r
  | .ne => !equalToF f l r
  | .lt => sameType l r && lessThan l r
  | .le => sameType l r && (lessThan l r || equalToF f l r)
  | .gt => sameType l r && !lessThan l r && !equalToF f l r
  | .ge => sameType l r && !lessThan l r

/-- Ordering compatibility in the words of claim C1: both numeric, both
strings, both null (a document `null` or the literal-`null` sentinel), or —
the amendment — both booleans. -/
def compatOrdered (a b : GoVal) : Bool :=
  (isNumeric a && isNumeric b) ||
  (match a, b with | .strV _, .strV _ => true | _, _ => false) ||
  ((isGoNil a || isJSONNull a) && (isGoNil b || isJSONNull b)) ||
  (match a, b with | .boolV _, .boolV _ => true | _, _ => false)

theorem sameType_eq_false_of_not_compat {a b : GoVal}
    (h : compatOrdered a b = false) : sameType a b = false := by
  cases a <;> cases b <;>
    simp_all [compatOrdered, sameType, isNothing, isJSONNull, isGoNil, isNumeric]

/-- C1 (counterexample): the claim states that an ordering comparison on two
boolean operands evaluates to false, but `CompExpr.Eval` evaluates
`true <= true` to true: `sameType` treats two booleans as compatible and
`<=` falls back to `equalTo`. -/
theorem c1_counterexample :
    compExprEval 0 CompOp.le (GoVal.boolV true) (GoVal.boolV true) = true := rfl

/-- C1 (amended): for the ordering operators `<`, `<=`, `>`, `>=`, if the two
operand values are neither both numeric, nor both strings, nor both null,
nor both booleans, the comparison evaluates to false; when both operands are
booleans, `<` evaluates to false, `<=` to whether they are equal, `>` to
whether they differ, and `>=` to true. -/
theorem c1_ordering_amended (f : ℕ) (a b : GoVal) :
    (compatOrdered a b = false →
      compExprEval f .lt a b = false ∧ compExprEval f .le a b = false ∧
      compExprEval f .gt a b = false ∧ compExprEval f .ge a b = false) ∧
    (∀ x y : Bool,
      compExprEval f .lt (.boolV x) (.boolV y) = false ∧
      compExprEval f .le (.boolV x) (.boolV y) = (x == y) ∧
      compExprEval f .gt (.boolV x) (.boolV y) = (x != y) ∧
      compExprEval f .ge (.boolV x) (.boolV y) = true) := by
  constructor
  · intro h
    have hs := sameType_eq_false_of_not_compat h
    simp [compExprEval, hs]
  · intro x y
    cases x <;> cases y <;>
      simp [compExprEval, sameType, lessThan, equalToF, primEq, isNothing,
        isJSONNull, isGoNil, isNumeric]

/-- C1 (witness): the amended theorem applied at concrete operands — an
array against a string (incompatible, ordering false) and two booleans. -/
theorem c1_ordering_amended_witness :
    compExprEval 0 .lt (.arrV []) (.strV "x") = false ∧
    compExprEval 0 .ge (.boolV true) (.boolV false) = true :=
  ⟨((c1_ordering_amended 0 (.arrV []) (.strV "x")).1 (by decide)).1,
    ((c1_ordering_amended 0 (.boolV true) (.boolV false)).2 true false).2.2.2⟩

/-! ### The AST of `internal/ast` -/

/-- `ast.ArgType`: parse-time classification of function arguments. -/
inductive ArgType where
  | literalA | queryA | filterA | logicalA | functionA
  deriving Repr, DecidableEq

/-- `ast.FuncType`: result type of a filter function. -/
inductive FuncType where
  | logicalT | valueT | nodesT
  deriving Repr, DecidableEq

/-- The five built-in functions that `jsonpath.Parser.Parse` registers
(`functions.LengthFunc` … `functions.ValueFunc`). -/
inductive BuiltinFn where
  | lengthF | countF | matchF | searchF | valueF
  deriving Repr, DecidableEq

mutual
/-- `ast.Selector`: the five RFC 9535 selector variants. -/
inductive Selector where
  | name (s : String)
  | index (i : ℤ)
  | slice (args : SliceArgs)
  | wildcard
  | filter (f : FilterExpr)

/-- `ast.FilterExpr`, wrapping a `LogicalOr` (a list of `LogicalAnd`, each a
list of `BasicExpr`). -/
inductive FilterExpr where
  | mk (or : List (List BasicExpr))

/-- `ast.BasicExpr` variants (`ExistExpr`, `NonExistExpr`, `ParenExpr`,
`NotParenExpr`, `CompExpr`, `FuncExpr` used as a test, `NegFuncExpr`). -/
inductive BasicExpr where
  | existE (q : PathQuery)
  | nonExistE (q : PathQuery)
  | paren (or : List (List BasicExpr))
  | notParen (or : List (List BasicExpr))
  | comp (l : CompValue) (op : CompOp) (r : CompValue)
  | funcL (fe : FuncExpr)
  | negFunc (fe : FuncExpr)

/-- `ast.CompValue`: `LiteralValue`, `QueryValue`, or `FuncValue`. -/
inductive CompValue where
  | lit (v : GoVal)
  | query (q : PathQuery)
  | funcV (fe : FuncExpr)

/-- `ast.FuncExpr`: a resolved function, parse-time argument types, and the
argument expressions. (The Go `args []any` may in principle also hold a
`CompValue`, but the parser never produces that shape, so it is omitted.) -/
inductive FuncExpr where
  | mk (fn : BuiltinFn) (argTypes : List ArgType) (args : List FnArg)

/-- A function-call argument as produced by `parser.parseFunctionArg`. -/
inductive FnArg where
  | fq (q : PathQuery)
  | fcall (fe : FuncExpr)
  | flit (v : GoVal)

/-- `ast.PathQuery`. -/
inductive PathQuery where
  | mk (root : Bool) (segments : List Segment)

/-- `ast.Segment`. -/
inductive Segment where
  | mk (selectors : List Selector) (descendant : Bool)
end

def PathQuery.root : PathQuery → Bool
  | .mk r _ => r

def PathQuery.segments : PathQuery → List Segment
  | .mk _ s => s

def Segment.selectors : Segment → List Selector
  | .mk sels _ => sels

def Segment.descendant : Segment → Bool
  | .mk _ d => d

def FuncExpr.fn : FuncExpr → BuiltinFn
  | .mk fn _ _ => fn

/-- `ast.Selector.IsSingular`: only name and index selectors. -/
def Selector.isSingular : Selector → Bool
  | .name _ => true
  | .index _ => true
  | _ => false

/-- `ast.Segment.IsSingular`: a child segment with exactly one singular
selector. -/
def Segment.isSingular (s : Segment) : Bool :=
  if s.descendant then false
  else
    match s.selectors with
    | [sel] => sel.isSingular
    | _ => false

/-- `ast.PathQuery.IsSingular`: no descendant segment and every segment
singular. -/
def PathQuery.isSingular (q : PathQuery) : Bool :=
  q.segments.all fun s => !s.descendant && s.isSingular

/-- `normalizeIndex` from `jsonpath.go`: negative indices count from the
end; out-of-bounds becomes `-1`. -/
def normalizeIndex (idx : ℤ) (length : ℕ) : ℤ :=
  let i := if idx < 0 then idx + length else idx
  if i < 0 ∨ (length : ℤ) ≤ i then -1 else i

/-! ### A fragment model of the Go `regexp` engine

The `functions` package delegates `match`/`search` to Go's `regexp`
package, which is outside this repository. The fragment below models the
behaviour of `regexp/syntax` + `regexp.MatchString` on the pattern subset
this development evaluates: literal alphanumeric/space characters, `.`,
top-level alternation `|`, and the text anchors `\A` / `\z`. Alternation
has the lowest precedence, exactly as in `regexp/syntax`, which is the
load-bearing fact for claim C7. -/

/-- Regular-expression syntax fragment. `anyNL` is `OpAnyChar` (`.` under
`syntax.DotNL`); `anyC` is the `[^\n\r]` class that `replaceDot` rewrites
it to. -/
inductive Rx where
  | emptyR
  | ch (c : Char)
  | anyC
  | anyNL
  | seq (r1 r2 : Rx)
  | alt (r1 r2 : Rx)
  | bos
  | eos
  deriving Repr, DecidableEq

/-- All ways `r` can match a prefix of the suffix `s`, where `i` is the
absolute position of `s` in the subject (needed by the anchors). Returns
the (position, rest) pairs after the match. -/
def Rx.runs : Rx → ℕ → List Char → List (ℕ × List Char)
  | .emptyR, i, s => [(i, s)]
  | .ch c, i, s =>
    match s with
    | x :: xs => if x = c then [(i + 1, xs)] else []
    | [] => []
  | .anyC, i, s =>
    match s with
    | x :: xs => if x ≠ '\n' ∧ x ≠ '\r' then [(i + 1, xs)] else []
    | [] => []
  | .anyNL, i, s =>
    match s with
    | _ :: xs => [(i + 1, xs)]
    | [] => []
  | .seq r1 r2, i, s => (Rx.runs r1 i s).flatMap fun p => Rx.runs r2 p.1 p.2
  | .alt r1 r2, i, s => Rx.runs r1 i s ++ Rx.runs r2 i s
  | .bos, i, s => if i = 0 then [(i, s)] else []
  | .eos, i, s => if s = [] then [(i, s)] else []

/-- Model of `regexp.MatchString`: some match starting at some position. -/
def searchFrom (r : Rx) : ℕ → List Char → Bool
  | i, [] => !(Rx.runs r i []).isEmpty
  | i, x :: xs => !(Rx.runs r i (x :: xs)).isEmpty || searchFrom r (i + 1) xs

/-- Model of `(*regexp.Regexp).MatchString`. -/
def goMatchString (r : Rx) (s : String) : Bool :=
  searchFrom r 0 s.toList

/-- Whole-string match of `r` against `s` (anchoring at both ends by
construction): some run from position 0 consumes the entire subject. -/
def specFullMatch (r : Rx) (s : String) : Bool :=
  (Rx.runs r 0 s.toList).any fun p => p.2 = []

/-- Characters the pattern-parser fragment accepts as literals. -/
def rxLiteralChar (c : Char) : Bool :=
  c.isAlphanum || c = ' '

/-- Parse a concatenation, stopping at a top-level `|` or the end; returns
the parsed sequence and the rest. Patterns outside the fragment give
`none`. -/
def parseRxSeq : List Char → Option (Rx × List Char)
  | [] => some (.emptyR, [])
  | '|' :: rest => some (.emptyR, '|' :: rest)
  | '.' :: rest => do
    let (r, rem) ← parseRxSeq rest
    return (.seq .anyNL r, rem)
  | '\\' :: 'A' :: rest => do
    let (r, rem) ← parseRxSeq rest
    return (.seq .bos r, rem)
  | '\\' :: 'z' :: rest => do
    let (r, rem) ← parseRxSeq rest
    return (.seq .eos r, rem)
  | c :: rest =>
    if rxLiteralChar c then do
      let (r, rem) ← parseRxSeq rest
      return (.seq (.ch c) r, rem)
    else none

/-- Parse a pattern: alternation (`|`) binds loosest, as in
`regexp/syntax`. Fuel-indexed on the remaining input. -/
def parseRx : ℕ → List Char → Option Rx
  | 0, _ => none
  | f + 1, cs => do
    let (r, rem) ← parseRxSeq cs
    match rem with
    | [] => some r
    | _ :: rest => do
      let r2 ← parseRx f rest
      return .alt r r2

/-- `replaceDot` from the `functions` package: rewrite every `OpAnyChar`
to `[^\n\r]` (RFC 9485 `.` semantics). -/
def replaceDotRx : Rx → Rx
  | .anyNL => .anyC
  | .seq a b => .seq (replaceDotRx a) (replaceDotRx b)
  | .alt a b => .alt (replaceDotRx a) (replaceDotRx b)
  | r => r

/-- `compileIRegexp` from the `functions` package on the modelled pattern
fragment: parse (with `DotNL`), rewrite dots, and hand the result to the
matcher; invalid (or unmodelled) patterns give `none`. -/
def compileIRegexpM (pattern : String) : Option Rx :=
  (parseRx (pattern.length + 1) pattern.toList).map replaceDotRx

/-! ### Built-in function `Call` implementations (`functions` package) -/

/-- `LengthFunc.Call`. Strings count Unicode scalar values (Go
`utf8.RuneCountInString`, Lean `String.length`). -/
def lengthCall (args : List GoVal) : GoVal :=
  match args with
  | [] => .nilV
  | a :: _ =>
    match a with
    | .nilV => .nilV
    | .strV s => .intV s.length
    | .arrV xs => .intV xs.length
    | .objV kvs => .intV kvs.length
    | _ => .nilV

/-- `CountFunc.Call`. -/
def countCall (args : List GoVal) : GoVal :=
  match args with
  | [] => .intV 0
  | a :: _ =>
    match a with
    | .arrV xs => .intV xs.length
    | _ => .intV 0

/-- `ValueFunc.Call`. -/
def valueCall (args : List GoVal) : GoVal :=
  match args with
  | [] => .nilV
  | a :: _ =>
    match a with
    | .nilV => .nilV
    | .arrV [x] => x
    | _ => .nilV

/-- `MatchFunc.Call`: wrap the pattern as `\A` + pattern + `\z` *textually*
(no grouping), compile, and run the unanchored `MatchString`. -/
def matchFnCall (args : List GoVal) : GoVal :=
  match args with
  | a :: b :: _ =>
    match a, b with
    | .strV s, .strV p =>
      match compileIRegexpM ("\\A" ++ p ++ "\\z") with
      | none => .boolV false
      | some r => .boolV (goMatchString r s)
    | _, _ => .boolV false
  | _ => .boolV false

/-- `SearchFunc.Call`: compile the pattern as-is and run `MatchString`. -/
def searchFnCall (args : List GoVal) : GoVal :=
  match args with
  | a :: b :: _ =>
    match a, b with
    | .strV s, .strV p =>
      match compileIRegexpM p with
      | none => .boolV false
      | some r => .boolV (goMatchString r s)
    | _, _ => .boolV false
  | _ => .boolV false

/-- `Function.ResultType` of the five builtins. -/
def BuiltinFn.resultType : BuiltinFn → FuncType
  | .matchF => .logicalT
  | .searchF => .logicalT
  | _ => .valueT

def FuncExpr.resultType (fe : FuncExpr) : FuncType :=
  fe.fn.resultType

/-- `Function.Call` dispatch. -/
def fnDispatch (fn : BuiltinFn) (args : List GoVal) : GoVal :=
  match fn with
  | .lengthF => lengthCall args
  | .countF => countCall args
  | .matchF => matchFnCall args
  | .searchF => searchFnCall args
  | .valueF => valueCall args

/-! ### The evaluators

Three code paths are embedded, all fuel-indexed on the recursion depth
(each embedded function peels one fuel level and hands `f` to callees;
exhausted fuel yields the empty list / `false` / `nothingV`):

* the `internal/ast` evaluator (`Selector.Apply`, `Segment.Apply`,
  `PathQuery.Select`) used by filter sub-queries — suffix `A`;
* the top-level evaluator of `jsonpath.go` (`appendSelector`,
  `applySegment`, `Path.Select`) — suffix `T`;
* its located twin (`appendSelectorLocated`, …, `Path.SelectLocated`) —
  suffix `L`, pairing each value with its `NormalizedPath`.
-/

/-- A normalized-path element (`NameElement` / `IndexElement`). -/
inductive PathElem where
  | nameE (s : String)
  | indexE (i : ℕ)
  deriving Repr, DecidableEq

mutual

/-- `ast.Selector.Apply` (the appended portion of `out`). -/
def Selector.applyA : ℕ → Selector → GoVal → GoVal → List GoVal
  | 0, _, _, _ => []
  | f + 1, sel, node, root =>
    match sel with
    | .name s =>
      match node with
      | .objV kvs =>
        (match kvs.lookup s with
         | some v => [v]
         | none => [])
      | _ => []
    | .index i =>
      match node with
      | .arrV xs =>
        let idx := if i < 0 then i + xs.length else i
        if 0 ≤ idx ∧ idx < (xs.length : ℤ) then [xs.getD idx.toNat .nilV] else []
      | _ => []
    | .slice args =>
      match node with
      | .arrV xs => (astSliceIndices args xs.length).map fun i => xs.getD i.toNat .nilV
      | _ => []
    | .wildcard =>
      match node with
      | .objV kvs => kvs.map (·.2)
      | .arrV xs => xs
      | _ => []
    | .filter fe =>
      match node with
      | .objV kvs => kvs.flatMap fun kv => if FilterExpr.evalF f fe kv.2 root then [kv.2] else []
      | .arrV xs => xs.flatMap fun x => if FilterExpr.evalF f fe x root then [x] else []
      | _ => []

/-- `ast.appendSelectors`. -/
def appendSelectorsA : ℕ → List Selector → GoVal → GoVal → List GoVal
  | 0, _, _, _ => []
  | f + 1, sels, node, root => sels.flatMap fun s => Selector.applyA f s node root

/-- `ast.appendDescendant`. -/
def appendDescendantA : ℕ → List Selector → GoVal → GoVal → List GoVal
  | 0, _, _, _ => []
  | f + 1, sels, node, root =>
    appendSelectorsA f sels node root ++
      (match node with
       | .objV kvs => kvs.flatMap fun kv => appendDescendantA f sels kv.2 root
       | .arrV xs => xs.flatMap fun x => appendDescendantA f sels x root
       | _ => [])

/-- `ast.Segment.Apply`. -/
def Segment.applyA : ℕ → Segment → List GoVal → GoVal → List GoVal
  | 0, _, _, _ => []
  | f + 1, seg, nodes, root =>
    if nodes.isEmpty then nodes
    else if seg.descendant then nodes.flatMap fun n => appendDescendantA f seg.selectors n root
    else nodes.flatMap fun n => appendSelectorsA f seg.selectors n root

/-- `ast.PathQuery.Select`. -/
def PathQuery.selectA : ℕ → PathQuery → GoVal → GoVal → List GoVal
  | 0, _, _, _ => []
  | f + 1, q, current, root =>
    let start := if q.root then root else current
    q.segments.foldl (fun acc seg => Segment.applyA f seg acc root) [start]

/-- `ast.FilterExpr.Eval`. -/
def FilterExpr.evalF : ℕ → FilterExpr → GoVal → GoVal → Bool
  | 0, _, _, _ => false
  | f + 1, .mk or, current, root => orEvalF f or current root

/-- `ast.LogicalOr.Eval` (short-circuiting `any`). -/
def orEvalF : ℕ → List (List BasicExpr) → GoVal → GoVal → Bool
  | 0, _, _, _ => false
  | f + 1, ors, current, root => ors.any fun conj => andEvalF f conj current root

/-- `ast.LogicalAnd.Eval` (short-circuiting `all`). -/
def andEvalF : ℕ → List BasicExpr → GoVal → GoVal → Bool
  | 0, _, _, _ => false
  | f + 1, ands, current, root => ands.all fun e => BasicExpr.evalB f e current root

/-- `ast.BasicExpr.Eval` dispatch over the variants. -/
def BasicExpr.evalB : ℕ → BasicExpr → GoVal → GoVal → Bool
  | 0, _, _, _ => false
  | f + 1, e, current, root =>
    match e with
    | .existE q =>
      if q.segments.isEmpty then true
      else decide (0 < (PathQuery.selectA f q current root).length)
    | .nonExistE q =>
      if q.segments.isEmpty then false
      else decide ((PathQuery.selectA f q current root).length = 0)
    | .paren or => orEvalF f or current root
    | .notParen or => !orEvalF f or current root
    | .comp l op r =>
      compExprEval f op (CompValue.valueC f l current root) (CompValue.valueC f r current root)
    | .funcL fe => FuncExpr.evalLog f fe current root
    | .negFunc fe => !FuncExpr.evalLog f fe current root

/-- `ast.QueryValue.Value` / `LiteralValue.Value` / `FuncValue.Value`. -/
def CompValue.valueC : ℕ → CompValue → GoVal → GoVal → GoVal
  | 0, _, _, _ => .nothingV
  | f + 1, cv, current, root =>
    match cv with
    | .lit v => v
    | .query q =>
      (match PathQuery.selectA f q current root with
       | [x] => x
       | _ => .nothingV)
    | .funcV fe => FuncExpr.callF f fe current root

/-- `ast.FuncExpr.Call`: evaluate the arguments, then dispatch. -/
def FuncExpr.callF : ℕ → FuncExpr → GoVal → GoVal → GoVal
  | 0, _, _, _ => .nilV
  | f + 1, .mk fn argTypes args, current, root =>
    fnDispatch fn (evalFnArgs f args argTypes current root)

/-- Argument materialisation inside `ast.FuncExpr.Call`: a query argument
typed `FilterArg` passes the raw node list; a singular query extracts the
single value (or Go `nil` for "nothing"); other queries pass the list. -/
def evalFnArgs : ℕ → List FnArg → List ArgType → GoVal → GoVal → List GoVal
  | 0, _, _, _, _ => []
  | f + 1, args, ts, current, root =>
    match args with
    | [] => []
    | a :: rest =>
      let v :=
        match a with
        | .fq q =>
          let nodes := PathQuery.selectA f q current root
          if ts.head? = some ArgType.filterA then .arrV nodes
          else if q.isSingular then
            (match nodes with
             | [x] => x
             | _ => .nilV)
          else .arrV nodes
        | .fcall fe => FuncExpr.callF f fe current root
        | .flit v => v
      v :: evalFnArgs f rest ts.tail current root

/-- `ast.FuncExpr.Eval`: only logical functions, only boolean results. -/
def FuncExpr.evalLog : ℕ → FuncExpr → GoVal → GoVal → Bool
  | 0, _, _, _ => false
  | f + 1, fe, current, root =>
    if fe.resultType ≠ .logicalT then false
    else
      match FuncExpr.callF f fe current root with
      | .boolV b => b
      | _ => false

end

mutual

/-- `appendSelector` from `jsonpath.go`. Identical to the `ast` variant
except for slices, which go through `sliceIndices` (with its in-loop range
guard) instead of `applySlice`. -/
def appendSelectorT : ℕ → Selector → GoVal → GoVal → List GoVal
  | 0, _, _, _ => []
  | f + 1, sel, node, root =>
    match sel with
    | .name s =>
      match node with
      | .objV kvs =>
        (match kvs.lookup s with
         | some v => [v]
         | none => [])
      | _ => []
    | .index i =>
      match node with
      | .arrV xs =>
        let idx := normalizeIndex i xs.length
        if 0 ≤ idx ∧ idx < (xs.length : ℤ) then [xs.getD idx.toNat .nilV] else []
      | _ => []
    | .slice args =>
      match node with
      | .arrV xs => (sliceIndices args xs.length).map fun i => xs.getD i.toNat .nilV
      | _ => []
    | .wildcard =>
      match node with
      | .objV kvs => kvs.map (·.2)
      | .arrV xs => xs
      | _ => []
    | .filter fe =>
      match node with
      | .objV kvs => kvs.flatMap fun kv => if FilterExpr.evalF f fe kv.2 root then [kv.2] else []
      | .arrV xs => xs.flatMap fun x => if FilterExpr.evalF f fe x root then [x] else []
      | _ => []

/-- `appendSelectors` from `jsonpath.go`. -/
def appendSelectorsT : ℕ → List Selector → GoVal → GoVal → List GoVal
  | 0, _, _, _ => []
  | f + 1, sels, node, root => sels.flatMap fun s => appendSelectorT f s node root

/-- `appendDescendant` from `jsonpath.go`. -/
def appendDescendantT : ℕ → List Selector → GoVal → GoVal → List GoVal
  | 0, _, _, _ => []
  | f + 1, sels, node, root =>
    appendSelectorsT f sels node root ++
      (match node with
       | .objV kvs => kvs.flatMap fun kv => appendDescendantT f sels kv.2 root
       | .arrV xs => xs.flatMap fun x => appendDescendantT f sels x root
       | _ => [])

/-- `applySegment` from `jsonpath.go`. -/
def applySegmentT : ℕ → Segment → List GoVal → GoVal → List GoVal
  | 0, _, _, _ => []
  | f + 1, seg, nodes, root =>
    if nodes.isEmpty then nodes
    else if seg.descendant then nodes.flatMap fun n => appendDescendantT f seg.selectors n root
    else nodes.flatMap fun n => appendSelectorsT f seg.selectors n root

end

/-- `Path.Select` from `jsonpath.go`: a `Path` with a `nil` compiled query
(`none`) yields `nil`; otherwise the segments fold over `[input]` with the
original input as root. -/
def pathSelect (fuel : ℕ) (p : Option PathQuery) (input : GoVal) : List GoVal :=
  match p with
  | none => []
  | some q =>
    match fuel with
    | 0 => []
    | f + 1 => q.segments.foldl (fun acc seg => applySegmentT f seg acc input) [input]

mutual

/-- `appendSelectorLocated` from `jsonpath.go`: like `appendSelector` but
extending the normalized path (`extendPath path elem = path ++ [elem]`). -/
def appendSelectorL : ℕ → Selector → GoVal → List PathElem → GoVal →
    List (GoVal × List PathElem)
  | 0, _, _, _, _ => []
  | f + 1, sel, node, path, root =>
    match sel with
    | .name s =>
      match node with
      | .objV kvs =>
        (match kvs.lookup s with
         | some v => [(v, path ++ [.nameE s])]
         | none => [])
      | _ => []
    | .index i =>
      match node with
      | .arrV xs =>
        let idx := normalizeIndex i xs.length
        if 0 ≤ idx ∧ idx < (xs.length : ℤ) then
          [(xs.getD idx.toNat .nilV, path ++ [.indexE idx.toNat])]
        else []
      | _ => []
    | .slice args =>
      match node with
      | .arrV xs =>
        (sliceIndices args xs.length).map fun i =>
          (xs.getD i.toNat .nilV, path ++ [.indexE i.toNat])
      | _ => []
    | .wildcard =>
      match node with
      | .objV kvs => kvs.map fun kv => (kv.2, path ++ [.nameE kv.1])
      | .arrV xs => xs.enum.map fun p => (p.2, path ++ [.indexE p.1])
      | _ => []
    | .filter fe =>
      match node with
      | .objV kvs =>
        kvs.flatMap fun kv =>
          if FilterExpr.evalF f fe kv.2 root then [(kv.2, path ++ [.nameE kv.1])] else []
      | .arrV xs =>
        xs.enum.flatMap fun p =>
          if FilterExpr.evalF f fe p.2 root then [(p.2, path ++ [.indexE p.1])] else []
      | _ => []

/-- `appendSelectorsLocated` from `jsonpath.go`. -/
def appendSelectorsL : ℕ → List Selector → GoVal → List PathElem → GoVal →
    List (GoVal × List PathElem)
  | 0, _, _, _, _ => []
  | f + 1, sels, node, path, root => sels.flatMap fun s => appendSelectorL f s node path root

/-- `appendDescendantLocated` from `jsonpath.go`. -/
def appendDescendantL : ℕ → List Selector → GoVal → List PathElem → GoVal →
    List (GoVal × List PathElem)
  | 0, _, _, _, _ => []
  | f + 1, sels, node, path, root =>
    appendSelectorsL f sels node path root ++
      (match node with
       | .objV kvs =>
         kvs.flatMap fun kv => appendDescendantL f sels kv.2 (path ++ [.nameE kv.1]) root
       | .arrV xs =>
         xs.enum.flatMap fun p => appendDescendantL f sels p.2 (path ++ [.indexE p.1]) root
       | _ => [])

/-- `applySegmentLocated` from `jsonpath.go`. -/
def applySegmentL : ℕ → Segment → List (GoVal × List PathElem) → GoVal →
    List (GoVal × List PathElem)
  | 0, _, _, _ => []
  | f + 1, seg, nodes, root =>
    if nodes.isEmpty then nodes
    else if seg.descendant then
      nodes.flatMap fun n => appendDescendantL f seg.selectors n.1 n.2 root
    else nodes.flatMap fun n => appendSelectorsL f seg.selectors n.1 n.2 root

end

/-- `Path.SelectLocated` from `jsonpath.go`: starts from the input value
with the empty (`nil`) path. -/
def pathSelectLocated (fuel : ℕ) (p : Option PathQuery) (input : GoVal) :
    List (GoVal × List PathElem) :=
  match p with
  | none => []
  | some q =>
    match fuel with
    | 0 => []
    | f + 1 => q.segments.foldl (fun acc seg => applySegmentL f seg acc input) [(input, [])]

/-! ### Canonical string form (`String` / `writeTo` methods) -/

/-- `strconv.Quote` as used by `Selector.writeTo` for name selectors,
modelled for the characters that occur in this development: standard
escapes for quote, backslash and the C0 controls with short forms; all
other characters are copied verbatim. -/
def goQuoteChar (c : Char) : String :=
  if c = '"' then "\\\""
  else if c = '\\' then "\\\\"
  else if c = '\n' then "\\n"
  else if c = '\r' then "\\r"
  else if c = '\t' then "\\t"
  else String.singleton c

def goQuote (s : String) : String :=
  "\"" ++ String.join (s.toList.map goQuoteChar) ++ "\""

/-- `SliceArgs.writeTo`. -/
def SliceArgs.writeStr (a : SliceArgs) : String :=
  (if a.hasStart then toString a.start else "") ++ ":" ++
    (if a.hasEnd then toString a.stop else "") ++
    (if a.hasStep then ":" ++ toString a.step else "")

/-- `Selector.writeTo`: note that a filter selector prints as a bare `?` —
the Go source says "Full filter expression serialization will be added
with filter support." -/
def Selector.writeStr : Selector → String
  | .name s => goQuote s
  | .index i => toString i
  | .slice a => a.writeStr
  | .wildcard => "*"
  | .filter _ => "?"

/-- `Segment.writeTo`. -/
def Segment.writeStr (s : Segment) : String :=
  (if s.descendant then ".." else "") ++ "[" ++
    String.intercalate "," (s.selectors.map Selector.writeStr) ++ "]"

/-- `PathQuery.writeTo` / `PathQuery.String`. -/
def PathQuery.writeStr (q : PathQuery) : String :=
  (if q.root then "$" else "@") ++ String.join (q.segments.map Segment.writeStr)

/-- `Path.String` from `jsonpath.go`: empty string for the `nil` query. -/
def pathString (p : Option PathQuery) : String :=
  match p with
  | none => ""
  | some q => q.writeStr

/-- C10: a zero-value `Path` (nil compiled query, modelled as `none`)
yields `nil` from `Select` and `SelectLocated` and the empty string from
`String`, for every input and every recursion budget; each operation
returns at the `nil` check without touching the query. -/
theorem c10_nil_query_safe (f : ℕ) (input : GoVal) :
    pathSelect f none input = [] ∧ pathSelectLocated f none input = [] ∧
    pathString none = "" :=
  ⟨rfl, rfl, rfl⟩

/-- C4 (failing input): in the filter `@.a == @.b` on the current node
`{"b": null}`, the left operand evaluates to `Nothing` (the singular query
selects no node) and the right operand to the document's JSON `null` (Go
`nil`); the claim requires the comparison to be false, but `equalTo`
classifies the Go-`nil` document value as "no value", so the comparison
evaluates to true. -/
theorem c4_nothing_eq_docnull_eval :
    CompValue.valueC 10 (.query (.mk false [.mk [.name "a"] false]))
        (.objV [("b", .nilV)]) (.objV [("b", .nilV)]) = .nothingV ∧
    CompValue.valueC 10 (.query (.mk false [.mk [.name "b"] false]))
        (.objV [("b", .nilV)]) (.objV [("b", .nilV)]) = .nilV ∧
    BasicExpr.evalB 11
        (.comp (.query (.mk false [.mk [.name "a"] false])) .eq
          (.query (.mk false [.mk [.name "b"] false])))
        (.objV [("b", .nilV)]) (.objV [("b", .nilV)]) = true :=
  ⟨rfl, rfl, rfl⟩

/-- The spec's `match` semantics in the claim's words: true iff the subject
as a whole matches the pattern (anchored at both ends). -/
def specMatchStr (s p : String) : Bool :=
  match compileIRegexpM p with
  | none => false
  | some r => specFullMatch r s

/-- C7 (failing input): `MatchFunc.Call` anchors by textual concatenation
`\A` + pattern + `\z` without grouping, so for the pattern `a|b` the
compiled regex is `(\Aa)|(b\z)` — alternation binds loosest — and the
unanchored `MatchString` finds the prefix `a` in the subject `ab`,
returning true; a whole-string match of `a|b` against `ab` is false. -/
theorem c7_match_alternation_escapes_anchors :
    matchFnCall [.strV "ab", .strV "a|b"] = .boolV true ∧
    specMatchStr "ab" "a|b" = false :=
  ⟨rfl, rfl⟩

/-! ### C5: the located evaluator refines the plain evaluator -/

theorem enumFrom_map_snd' {α : Type} (n : ℕ) (l : List α) :
    (List.enumFrom n l).map Prod.snd = l := by
  induction l generalizing n with
  | nil => rfl
  | cons x xs ih => simp [List.enumFrom, ih]

theorem enumFrom_flatMap_snd {α β : Type} (n : ℕ) (l : List α) (g : α → List β) :
    (List.enumFrom n l).flatMap (fun p => g p.2) = l.flatMap g := by
  induction l generalizing n with
  | nil => rfl
  | cons x xs ih => simp [List.enumFrom, ih]

theorem isEmpty_map' {α β : Type} (f : α → β) (l : List α) :
    (l.map f).isEmpty = l.isEmpty := by
  cases l <;> rfl

theorem locatedValuesAux (f : ℕ) :
    (∀ sel node path root,
      (appendSelectorL f sel node path root).map Prod.fst = appendSelectorT f sel node root) ∧
    (∀ sels node path root,
      (appendSelectorsL f sels node path root).map Prod.fst = appendSelectorsT f sels node root) ∧
    (∀ sels node path root,
      (appendDescendantL f sels node path root).map Prod.fst =
        appendDescendantT f sels node root) ∧
    (∀ seg lnodes root,
      (applySegmentL f seg lnodes root).map Prod.fst =
        applySegmentT f seg (lnodes.map Prod.fst) root) := by
  induction f with
  | zero => exact ⟨fun _ _ _ _ => rfl, fun _ _ _ _ => rfl, fun _ _ _ _ => rfl,
      fun _ _ _ => rfl⟩
  | succ f ih =>
    obtain ⟨ihSel, ihSels, ihDesc, ihSeg⟩ := ih
    have hsel : ∀ sel node path root,
        (appendSelectorL (f + 1) sel node path root).map Prod.fst =
          appendSelectorT (f + 1) sel node root := by
      intro sel node path root
      cases sel with
      | name s =>
        cases node <;> simp only [appendSelectorL, appendSelectorT]
        case objV kvs => cases kvs.lookup s <;> rfl
        all_goals rfl
      | index i =>
        cases node <;> simp only [appendSelectorL, appendSelectorT]
        case arrV xs => split <;> rfl
        all_goals rfl
      | slice args =>
        cases node <;> simp only [appendSelectorL, appendSelectorT]
        case arrV xs => simp [List.map_map, Function.comp]
        all_goals rfl
      | wildcard =>
        cases node <;> simp only [appendSelectorL, appendSelectorT]
        case objV kvs => simp [List.map_map, Function.comp]
        case arrV xs =>
          rw [List.map_map]
          have hcomp : (Prod.fst ∘ fun p : ℕ × GoVal => (p.2, path ++ [PathElem.indexE p.1])) =
              Prod.snd := by
            funext p
            rfl
          rw [List.enum, hcomp, enumFrom_map_snd']
        all_goals rfl
      | filter fe =>
        cases node <;> simp only [appendSelectorL, appendSelectorT]
        case objV kvs =>
          rw [List.map_flatMap]
          congr 1
          funext kv
          split <;> rfl
        case arrV xs =>
          rw [List.map_flatMap]
          have : (fun p : ℕ × GoVal =>
              (if FilterExpr.evalF f fe p.2 root then [(p.2, path ++ [PathElem.indexE p.1])]
                else []).map Prod.fst) =
              (fun p : ℕ × GoVal =>
                if FilterExpr.evalF f fe p.2 root then [p.2] else []) := by
            funext p
            split <;> rfl
          rw [this, List.enum]
          exact enumFrom_flatMap_snd 0 xs
            (fun x => if FilterExpr.evalF f fe x root then [x] else [])
        all_goals rfl
    have hsels : ∀ sels node path root,
        (appendSelectorsL (f + 1) sels node path root).map Prod.fst =
          appendSelectorsT (f + 1) sels node root := by
      intro sels node path root
      simp only [appendSelectorsL, appendSelectorsT]
      rw [List.map_flatMap]
      congr 1
      funext s
      exact ihSel s node path root
    refine ⟨hsel, hsels, ?_, ?_⟩
    · intro sels node path root
      simp only [appendDescendantL, appendDescendantT, List.map_append]
      rw [ihSels]
      congr 1
      cases node <;> simp only
      case objV kvs =>
        rw [List.map_flatMap]
        congr 1
        funext kv
        exact ihDesc sels kv.2 _ root
      case arrV xs =>
        rw [List.map_flatMap]
        have hfn : (fun p : ℕ × GoVal =>
            (appendDescendantL f sels p.2 (path ++ [PathElem.indexE p.1]) root).map Prod.fst) =
            (fun p : ℕ × GoVal => appendDescendantT f sels p.2 root) := by
          funext p
          exact ihDesc sels p.2 _ root
        rw [hfn, List.enum]
        exact enumFrom_flatMap_snd 0 xs (fun x => appendDescendantT f sels x root)
      all_goals rfl
    · intro seg lnodes root
      simp only [applySegmentL, applySegmentT, isEmpty_map']
      by_cases hempty : lnodes.isEmpty
      · simp [hempty]
      · simp only [hempty, Bool.false_eq_true, if_false]
        by_cases hdesc : seg.descendant
        · simp only [hdesc, if_true]
          rw [List.map_flatMap, List.flatMap_map]
          congr 1
          funext n
          exact ihDesc seg.selectors n.1 n.2 root
        · simp only [hdesc, Bool.false_eq_true, if_false]
          rw [List.map_flatMap, List.flatMap_map]
          congr 1
          funext n
          exact ihSels seg.selectors n.1 n.2 root

/-- C5: for every compiled query, recursion budget and document, the values
of the located result equal, element for element and in the same order, the
result of the plain evaluator. (Objects are embedded as association lists
in a fixed iteration order; both evaluators traverse that order, so the
list-level equality here is the order-defined part of the claim, and it
entails multiset equality for any object iteration order.) -/
theorem c5_selectLocated_values (f : ℕ) (p : Option PathQuery) (d : GoVal) :
    (pathSelectLocated f p d).map Prod.fst = pathSelect f p d := by
  cases p with
  | none => rfl
  | some q =>
    cases f with
    | zero => rfl
    | succ f =>
      simp only [pathSelectLocated, pathSelect]
      have haux : ∀ (segs : List Segment) (lacc : List (GoVal × List PathElem)),
          (segs.foldl (fun acc seg => applySegmentL f seg acc d) lacc).map Prod.fst =
            segs.foldl (fun acc seg => applySegmentT f seg acc d) (lacc.map Prod.fst) := by
        intro segs
        induction segs with
        | nil => intro lacc; rfl
        | cons s rest ih =>
          intro lacc
          simp only [List.foldl_cons]
          rw [ih, (locatedValuesAux f).2.2.2 s lacc d]
      exact haux q.segments [(d, [])]

/-! ### C9: the top-level evaluator versus the `ast` evaluator -/

/-- The region on which the two slice implementations provably agree:
positive effective step, or a start bound that is absent or at least `-1`
(so that one `+L` normalization cannot leave it negative). -/
def Selector.sliceOKB : Selector → Bool
  | .slice args =>
    decide (0 < (if args.hasStep then args.step else 1)) || !args.hasStart ||
      decide (-1 ≤ args.start)
  | _ => true

def Segment.sliceOKB (s : Segment) : Bool :=
  s.selectors.all Selector.sliceOKB

def PathQuery.sliceOKB (q : PathQuery) : Bool :=
  q.segments.all Segment.sliceOKB

theorem topAstAux (f : ℕ) :
    (∀ sel node root, Selector.sliceOKB sel = true →
      appendSelectorT f sel node root = Selector.applyA f sel node root) ∧
    (∀ sels node root, sels.all Selector.sliceOKB = true →
      appendSelectorsT f sels node root = appendSelectorsA f sels node root) ∧
    (∀ sels node root, sels.all Selector.sliceOKB = true →
      appendDescendantT f sels node root = appendDescendantA f sels node root) ∧
    (∀ seg nodes root, Segment.sliceOKB seg = true →
      applySegmentT f seg nodes root = Segment.applyA f seg nodes root) := by
  induction f with
  | zero => exact ⟨fun _ _ _ _ => rfl, fun _ _ _ _ => rfl, fun _ _ _ _ => rfl,
      fun _ _ _ _ => rfl⟩
  | succ f ih =>
    obtain ⟨ihSel, ihSels, ihDesc, _⟩ := ih
    have hsel : ∀ sel node root, Selector.sliceOKB sel = true →
        appendSelectorT (f + 1) sel node root = Selector.applyA (f + 1) sel node root := by
      intro sel node root h
      cases sel with
      | name s => rfl
      | wildcard => rfl
      | filter fe => rfl
      | index i =>
        cases node <;> simp only [appendSelectorT, Selector.applyA]
        case arrV xs =>
          by_cases hr : 0 ≤ (if i < 0 then i + (xs.length : ℤ) else i) ∧
              (if i < 0 then i + (xs.length : ℤ) else i) < (xs.length : ℤ)
          · have hni : normalizeIndex i xs.length = if i < 0 then i + (xs.length : ℤ) else i := by
              simp only [normalizeIndex]
              rw [if_neg (by omega)]
            rw [hni]
          · have hni : normalizeIndex i xs.length = -1 := by
              simp only [normalizeIndex]
              rw [if_pos (by omega)]
            rw [hni, if_neg (by omega), if_neg hr]
      | slice args =>
        cases node <;> simp only [appendSelectorT, Selector.applyA]
        case arrV xs =>
          simp only [Selector.sliceOKB, Bool.or_eq_true, Bool.not_eq_eq_eq_not,
            Bool.not_true, decide_eq_true_eq] at h
          rw [sliceIndices_eq_astSliceIndices args xs.length (by tauto)]
    have hsels : ∀ sels node root, sels.all Selector.sliceOKB = true →
        appendSelectorsT (f + 1) sels node root = appendSelectorsA (f + 1) sels node root := by
      intro sels
      induction sels with
      | nil => intro node root h; rfl
      | cons s rest ihrest =>
        intro node root h
        simp only [List.all_cons, Bool.and_eq_true] at h
        simp only [appendSelectorsT, appendSelectorsA, List.flatMap_cons]
        have hr := ihrest node root h.2
        simp only [appendSelectorsT, appendSelectorsA] at hr
        rw [ihSel s node root h.1, hr]
    have hdesc : ∀ sels node root, sels.all Selector.sliceOKB = true →
        appendDescendantT (f + 1) sels node root = appendDescendantA (f + 1) sels node root := by
      intro sels node root h
      simp only [appendDescendantT, appendDescendantA]
      rw [ihSels sels node root h]
      cases node with
      | objV kvs =>
        congr 1
        show kvs.flatMap (fun kv => appendDescendantT f sels kv.2 root) =
          kvs.flatMap (fun kv => appendDescendantA f sels kv.2 root)
        congr 1
        funext kv
        exact ihDesc sels kv.2 root h
      | arrV xs =>
        congr 1
        show xs.flatMap (fun x => appendDescendantT f sels x root) =
          xs.flatMap (fun x => appendDescendantA f sels x root)
        congr 1
        funext x
        exact ihDesc sels x root h
      | _ => rfl
    refine ⟨hsel, hsels, hdesc, ?_⟩
    intro seg nodes root h
    simp only [applySegmentT, Segment.applyA]
    by_cases hempty : nodes.isEmpty
    · simp [hempty]
    · simp only [hempty, Bool.false_eq_true, if_false]
      by_cases hd : seg.descendant
      · simp only [hd, if_true]
        congr 1
        funext n
        exact ihDesc seg.selectors n root h
      · simp only [hd, Bool.false_eq_true, if_false]
        congr 1
        funext n
        exact ihSels seg.selectors n root h

/-- C9 (counterexample): on the slice `$[-4::-1]` over `[10, 20, 30]` the
top-level evaluator (`Path.Select`) selects nothing, while the `ast`
evaluator used for filter sub-queries (`PathQuery.Select`) clamps the
start bound to 0 and selects the first element. -/
theorem c9_counterexample :
    pathSelect 10 (some (.mk true [.mk [.slice ⟨-4, 0, -1, true, false, true⟩] false]))
        (.arrV [.intV 10, .intV 20, .intV 30]) ≠
      PathQuery.selectA 10 (.mk true [.mk [.slice ⟨-4, 0, -1, true, false, true⟩] false])
        (.arrV [.intV 10, .intV 20, .intV 30]) (.arrV [.intV 10, .intV 20, .intV 30]) := by
  have h1 : pathSelect 10
      (some (.mk true [.mk [.slice ⟨-4, 0, -1, true, false, true⟩] false]))
      (.arrV [.intV 10, .intV 20, .intV 30]) = [] := rfl
  have h2 : PathQuery.selectA 10 (.mk true [.mk [.slice ⟨-4, 0, -1, true, false, true⟩] false])
      (.arrV [.intV 10, .intV 20, .intV 30]) (.arrV [.intV 10, .intV 20, .intV 30]) =
      [.intV 10] := rfl
  rw [h1, h2]
  simp

/-- C9 (amended): the two evaluators produce identical node lists whenever
every slice selector in the query's segments has a positive effective
step, or a start bound that is absent or at least `-1`; the two slice
implementations agree under the same proviso
(`sliceIndices_eq_astSliceIndices`). -/
theorem c9_evaluators_agree (f : ℕ) (q : PathQuery) (d : GoVal)
    (h : q.sliceOKB = true) :
    pathSelect f (some q) d = PathQuery.selectA f q d d := by
  cases f with
  | zero => rfl
  | succ f =>
    simp only [pathSelect, PathQuery.selectA, ite_self]
    simp only [PathQuery.sliceOKB] at h
    have haux : ∀ (segs : List Segment) (acc : List GoVal),
        segs.all Segment.sliceOKB = true →
        segs.foldl (fun acc seg => applySegmentT f seg acc d) acc =
          segs.foldl (fun acc seg => Segment.applyA f seg acc d) acc := by
      intro segs
      induction segs with
      | nil => intro acc _; rfl
      | cons s rest ihrest =>
        intro acc hall
        simp only [List.all_cons, Bool.and_eq_true] at hall
        simp only [List.foldl_cons]
        rw [(topAstAux f).2.2.2 s acc d hall.1, ihrest _ hall.2]
    exact haux q.segments [d] h

/-- C9 (witness): the amended theorem at the slice query `$[0:2]` over
`[10, 20, 30]` — the proviso holds and both evaluators select the first
two elements. -/
theorem c9_evaluators_agree_witness :
    PathQuery.sliceOKB (.mk true [.mk [.slice ⟨0, 2, 0, true, true, false⟩] false]) = true ∧
    pathSelect 10 (some (.mk true [.mk [.slice ⟨0, 2, 0, true, true, false⟩] false]))
        (.arrV [.intV 10, .intV 20, .intV 30]) =
      PathQuery.selectA 10 (.mk true [.mk [.slice ⟨0, 2, 0, true, true, false⟩] false])
        (.arrV [.intV 10, .intV 20, .intV 30]) (.arrV [.intV 10, .intV 20, .intV 30]) :=
  ⟨by decide,
    c9_evaluators_agree 10 (.mk true [.mk [.slice ⟨0, 2, 0, true, true, false⟩] false])
      (.arrV [.intV 10, .intV 20, .intV 30]) (by decide)⟩

/-! ### C8: singular queries select at most one node -/

theorem applyA_singular_le_one (f : ℕ) (sel : Selector) (h : sel.isSingular = true)
    (node root : GoVal) : (Selector.applyA f sel node root).length ≤ 1 := by
  cases f with
  | zero => simp [Selector.applyA]
  | succ f =>
    cases sel with
    | name s =>
      cases node <;> simp only [Selector.applyA] <;> try simp
      case objV kvs => cases kvs.lookup s <;> simp
    | index i =>
      cases node <;> simp only [Selector.applyA] <;> first
        | (split <;> (try split) <;> simp)
        | simp
    | slice args => simp [Selector.isSingular] at h
    | wildcard => simp [Selector.isSingular] at h
    | filter fe => simp [Selector.isSingular] at h

theorem appendSelectorsA_singular_le_one (f : ℕ) (sel : Selector)
    (h : sel.isSingular = true) (node root : GoVal) :
    (appendSelectorsA f [sel] node root).length ≤ 1 := by
  cases f with
  | zero => simp [appendSelectorsA]
  | succ f =>
    simp only [appendSelectorsA, List.flatMap_cons, List.flatMap_nil, List.append_nil]
    exact applyA_singular_le_one f sel h node root

theorem segmentA_singular_le_one (f : ℕ) (seg : Segment) (h : seg.isSingular = true)
    (nodes : List GoVal) (hn : nodes.length ≤ 1) (root : GoVal) :
    (Segment.applyA f seg nodes root).length ≤ 1 := by
  cases f with
  | zero => simp [Segment.applyA]
  | succ f =>
    simp only [Segment.isSingular] at h
    by_cases hd : seg.descendant
    · rw [if_pos hd] at h
      exact absurd h (by simp)
    · rw [if_neg hd] at h
      simp only [Segment.applyA, hd, Bool.false_eq_true, if_false]
      cases nodes with
      | nil => simp
      | cons n rest =>
        cases rest with
        | nil =>
          simp only [List.isEmpty, Bool.false_eq_true, if_false,
            List.flatMap_cons, List.flatMap_nil, List.append_nil]
          rcases hsels : seg.selectors with _ | ⟨sel, srest⟩
          · rw [hsels] at h
            simp at h
          · rcases srest with _ | ⟨s2, srest2⟩
            · rw [hsels] at h
              exact appendSelectorsA_singular_le_one f sel h n root
            · rw [hsels] at h
              simp at h
        | cons m rest2 => simp at hn

/-- C8: for every query satisfying `PathQuery.IsSingular` (child segments
only, each with exactly one name or index selector), evaluation via the
`ast` evaluator selects at most one node, on every document, current node
and recursion budget. -/
theorem c8_singular_query_le_one (f : ℕ) (q : PathQuery) (h : q.isSingular = true)
    (current root : GoVal) : (PathQuery.selectA f q current root).length ≤ 1 := by
  cases f with
  | zero => simp [PathQuery.selectA]
  | succ f =>
    simp only [PathQuery.selectA]
    simp only [PathQuery.isSingular] at h
    have haux : ∀ (segs : List Segment) (acc : List GoVal),
        segs.all (fun s => !s.descendant && s.isSingular) = true → acc.length ≤ 1 →
        (segs.foldl (fun acc seg => Segment.applyA f seg acc root) acc).length ≤ 1 := by
      intro segs
      induction segs with
      | nil => intro acc _ ha; simpa using ha
      | cons s rest ih =>
        intro acc hall ha
        simp only [List.all_cons, Bool.and_eq_true] at hall
        simp only [List.foldl_cons]
        exact ih _ hall.2 (segmentA_singular_le_one f s hall.1.2 acc ha root)
    exact haux q.segments _ h (by simp)

/-- C8 (witness): the singular query `$["a"][0]` on `{"a": [5, 6]}` — the
hypothesis holds by computation and the result has at most one node. -/
theorem c8_singular_query_le_one_witness :
    PathQuery.isSingular (.mk true [.mk [.name "a"] false, .mk [.index 0] false]) = true ∧
    (PathQuery.selectA 10 (.mk true [.mk [.name "a"] false, .mk [.index 0] false])
      (.objV [("a", .arrV [.intV 5, .intV 6])])
      (.objV [("a", .arrV [.intV 5, .intV 6])])).length ≤ 1 :=
  ⟨by decide,
    c8_singular_query_le_one 10 (.mk true [.mk [.name "a"] false, .mk [.index 0] false])
      (by decide) (.objV [("a", .arrV [.intV 5, .intV 6])])
      (.objV [("a", .arrV [.intV 5, .intV 6])])⟩

/-- C2 (counterexample): on the slice `[-4::-1]` over an array of length 3
the top-level evaluator appends nothing, while the procedure exactly as the
claim states it (negative-step start clamped into `[0, L-1]`) selects the
element at index 0. -/
theorem c2_counterexample :
    appendSelectorT 1 (.slice ⟨-4, 0, -1, true, false, true⟩)
        (.arrV [.intV 10, .intV 20, .intV 30]) .nilV = [] ∧
    (claimSliceIndices ⟨-4, 0, -1, true, false, true⟩ 3).map
        (fun i => [GoVal.intV 10, .intV 20, .intV 30].getD i.toNat .nilV) = [.intV 10] :=
  ⟨rfl, rfl⟩

/-- C2 (amended): a slice selector applied by the top-level evaluator to an
array appends exactly `arr[i]` for the indices of the claim's procedure with
the negative-step start clamped into `[-1, L-1]` (instead of `[0, L-1]`):
step defaults to 1 and `step == 0` gives the empty sequence, defaults are
`0`/`L` for positive step and `L-1`/`-L-1` for negative step, negative
bounds are normalized once by `+L`, both bounds are clamped into `[0, L]`
for positive step and into `[-1, L-1]` for negative step, and iteration
visits `start, start+step, …` while `i < end` (resp. `i > end`). -/
theorem c2_slice_amended (f : ℕ) (args : SliceArgs) (xs : List GoVal) (root : GoVal) :
    appendSelectorT (f + 1) (.slice args) (.arrV xs) root =
      (specSliceIndices args xs.length).map (fun i => xs.getD i.toNat .nilV) := by
  simp only [appendSelectorT]
  rw [sliceIndices_eq_specSliceIndices]

/-! ### The lexer (`internal/lexer`)

Embedded over `List Char` with character positions (the Go lexer counts
bytes; every character the lexer skips between tokens is a one-byte blank,
so adjacency of tokens — the only positional property the parser relies
on — is preserved). Instead of re-slicing the source, a token carries the
text `Token.Val` would return (the raw lexeme) in its `value` field; for
string tokens `value` is the escape-resolved content exactly as in Go. -/

inductive TKind where
  | invalidK | eofK | dollarK | atK | dotK | dotdotK | lbrackK | rbrackK
  | lparenK | rparenK | starK | questionK | commaK | colonK
  | eqK | neK | ltK | leK | gtK | geK | andK | orK | notK
  | identK | intK | numberK | stringK | trueK | falseK | nullK
  deriving Repr, DecidableEq

structure Tok where
  kind : TKind
  start : ℕ
  stop : ℕ
  value : String
  deriving Repr, DecidableEq

def isBlankC (c : Char) : Bool :=
  c == ' ' || c == '\t' || c == '\n' || c == '\r'

def isDigitC (c : Char) : Bool :=
  '0' ≤ c && c ≤ '9'

def isNameFirstC (c : Char) : Bool :=
  ('a' ≤ c && c ≤ 'z') || ('A' ≤ c && c ≤ 'Z') || c == '_' ||
    (0x80 ≤ c.toNat && c.toNat ≤ 0xD7FF) || (0xE000 ≤ c.toNat && c.toNat ≤ 0x10FFFF)

def isNameCharC (c : Char) : Bool :=
  isNameFirstC c || isDigitC c

def isUnescapedC (c quote : Char) : Bool :=
  if c == quote then false
  else
    (0x20 ≤ c.toNat && c.toNat ≤ 0x5B) || (0x5D ≤ c.toNat && c.toNat ≤ 0xD7FF) ||
      (0xE000 ≤ c.toNat && c.toNat ≤ 0x10FFFF)

def hexValC (c : Char) : Option ℕ :=
  let n := c.toNat
  if 48 ≤ n ∧ n ≤ 57 then some (n - 48)
  else if 97 ≤ n ∧ n ≤ 102 then some (n - 87)
  else if 65 ≤ n ∧ n ≤ 70 then some (n - 55)
  else none

def hex4 (a b c d : Char) : Option ℕ := do
  let va ← hexValC a
  let vb ← hexValC b
  let vc ← hexValC c
  let vd ← hexValC d
  pure (((va * 16 + vb) * 16 + vc) * 16 + vd)

def skipBlanks : ℕ → List Char → ℕ × List Char
  | pos, c :: cs => if isBlankC c then skipBlanks (pos + 1) cs else (pos, c :: cs)
  | pos, [] => (pos, [])

def takeWhileName : List Char → List Char × List Char
  | c :: cs =>
    if isNameCharC c then
      let (pre, rest) := takeWhileName cs
      (c :: pre, rest)
    else ([], c :: cs)
  | [] => ([], [])

def takeDigitsL : List Char → List Char × List Char
  | c :: cs =>
    if isDigitC c then
      let (pre, rest) := takeDigitsL cs
      (c :: pre, rest)
    else ([], c :: cs)
  | [] => ([], [])

/-- `Lexer.scanIdent`: identifiers and the keywords `true`/`false`/`null`. -/
def scanIdent (start : ℕ) (cs : List Char) : Tok × ℕ × List Char :=
  let (pre, rest) := takeWhileName cs
  let raw := String.mk pre
  let pos := start + pre.length
  let kind :=
    if raw == "true" then TKind.trueK
    else if raw == "false" then TKind.falseK
    else if raw == "null" then TKind.nullK
    else TKind.identK
  (⟨kind, start, pos, raw⟩, pos, rest)

/-- `Lexer.scanNumber`: RFC 9535 integer / number literals. -/
def scanNumber (start : ℕ) (cs0 : List Char) : Tok × ℕ × List Char :=
  let sign : Option (ℕ × List Char) :=
    match cs0 with
    | '-' :: rest =>
      (match rest with
       | c :: _ => if isDigitC c then some (start + 1, rest) else none
       | [] => none)
    | _ => some (start, cs0)
  match sign with
  | none => (⟨.invalidK, start, start + 1, "expected digit after minus"⟩, start + 1, [])
  | some (p1, cs1) =>
    let ipart : Option (ℕ × List Char) :=
      match cs1 with
      | '0' :: rest =>
        (match rest with
         | d :: _ => if isDigitC d then none else some (p1 + 1, rest)
         | [] => some (p1 + 1, []))
      | _ :: _ =>
        let (ds, rest) := takeDigitsL cs1
        some (p1 + ds.length, rest)
      | [] => none
    match ipart with
    | none => (⟨.invalidK, start, p1 + 1, "leading zeros not allowed"⟩, p1 + 1, [])
    | some (p2, cs2) =>
      let fracPart : Option (Bool × ℕ × List Char) :=
        match cs2 with
        | '.' :: rest =>
          (match rest with
           | d :: _ =>
             if isDigitC d then
               let (ds, r2) := takeDigitsL rest
               some (true, p2 + 1 + ds.length, r2)
             else none
           | [] => none)
        | _ => some (false, p2, cs2)
      match fracPart with
      | none => (⟨.invalidK, start, p2 + 1, "expected digit after dot"⟩, p2 + 1, [])
      | some (isNum1, p3, cs3) =>
        let expPart : Option (Bool × ℕ × List Char) :=
          match cs3 with
          | c :: rest =>
            if c = 'e' ∨ c = 'E' then
              let sgn : ℕ × List Char :=
                match rest with
                | s :: r2 => if s = '+' ∨ s = '-' then (1, r2) else (0, rest)
                | [] => (0, rest)
              (match sgn.2 with
               | d :: _ =>
                 if isDigitC d then
                   let (ds, r3) := takeDigitsL sgn.2
                   some (true, p3 + 1 + sgn.1 + ds.length, r3)
                 else none
               | [] => none)
            else some (false, p3, cs3)
          | [] => some (false, p3, cs3)
        match expPart with
        | none => (⟨.invalidK, start, p3 + 1, "expected digit in exponent"⟩, p3 + 1, [])
        | some (isNum2, p4, cs4) =>
          let kind := if isNum1 ∨ isNum2 then TKind.numberK else TKind.intK
          (⟨kind, start, p4, String.mk (cs0.take (p4 - start))⟩, p4, cs4)

/-- `Lexer.scanString` main loop (after the opening quote): unescaped
characters, the escape set `\" \' \\ \/ \b \f \n \r \t \uXXXX` (only the
matching quote may be escaped), and UTF-16 surrogate pairs. -/
def scanStrAux (quote : Char) (start : ℕ) : List Char → ℕ → List Char →
    Tok × ℕ × List Char
  | _, pos, [] => (⟨.invalidK, start, pos, "unterminated string"⟩, pos, [])
  | acc, pos, c :: rest =>
    if c = quote then (⟨.stringK, start, pos + 1, String.mk acc.reverse⟩, pos + 1, rest)
    else if c = '\\' then
      match rest with
      | [] => (⟨.invalidK, start, pos + 1, "invalid escape sequence"⟩, pos + 1, [])
      | e :: rest2 =>
        if e = quote then scanStrAux quote start (quote :: acc) (pos + 2) rest2
        else if e = 'b' then scanStrAux quote start (Char.ofNat 8 :: acc) (pos + 2) rest2
        else if e = 'f' then scanStrAux quote start (Char.ofNat 12 :: acc) (pos + 2) rest2
        else if e = 'n' then scanStrAux quote start ('\n' :: acc) (pos + 2) rest2
        else if e = 'r' then scanStrAux quote start ('\r' :: acc) (pos + 2) rest2
        else if e = 't' then scanStrAux quote start ('\t' :: acc) (pos + 2) rest2
        else if e = '/' then scanStrAux quote start ('/' :: acc) (pos + 2) rest2
        else if e = '\\' then scanStrAux quote start ('\\' :: acc) (pos + 2) rest2
        else if e = 'u' then
          match rest2 with
          | a :: b :: c2 :: d :: rest3 =>
            (match hex4 a b c2 d with
             | none => (⟨.invalidK, start, pos + 2, "invalid escape sequence"⟩, pos + 2, [])
             | some n =>
               if n < 0xD800 ∨ 0xDFFF < n then
                 scanStrAux quote start (Char.ofNat n :: acc) (pos + 6) rest3
               else if 0xDC00 ≤ n then
                 (⟨.invalidK, start, pos + 2, "invalid escape sequence"⟩, pos + 2, [])
               else
                 (match rest3 with
                  | '\\' :: 'u' :: a2 :: b2 :: c3 :: d2 :: rest4 =>
                    (match hex4 a2 b2 c3 d2 with
                     | none =>
                       (⟨.invalidK, start, pos + 2, "invalid escape sequence"⟩, pos + 2, [])
                     | some m =>
                       if 0xDC00 ≤ m ∧ m ≤ 0xDFFF then
                         scanStrAux quote start
                           (Char.ofNat (0x10000 + (n - 0xD800) * 0x400 + (m - 0xDC00)) :: acc)
                           (pos + 12) rest4
                       else (⟨.invalidK, start, pos + 2, "invalid escape sequence"⟩, pos + 2, []))
                  | _ => (⟨.invalidK, start, pos + 2, "invalid escape sequence"⟩, pos + 2, [])))
          | _ => (⟨.invalidK, start, pos + 2, "invalid escape sequence"⟩, pos + 2, [])
        else (⟨.invalidK, start, pos + 1, "invalid escape sequence"⟩, pos + 1, [])
    else if isUnescapedC c quote then scanStrAux quote start (c :: acc) (pos + 1) rest
    else (⟨.invalidK, start, pos, "invalid character in string"⟩, pos, [])

/-- `Lexer.Scan`: skip blank space, then dispatch on the current
character. An invalid token halts the lexer (the rest is dropped). -/
def scanTok (pos0 : ℕ) (cs0 : List Char) : Tok × ℕ × List Char :=
  let p := skipBlanks pos0 cs0
  let pos := p.1
  match p.2 with
  | [] => (⟨.eofK, pos, pos, ""⟩, pos, [])
  | c :: rest =>
    if c = '$' then (⟨.dollarK, pos, pos + 1, ""⟩, pos + 1, rest)
    else if c = '@' then (⟨.atK, pos, pos + 1, ""⟩, pos + 1, rest)
    else if c = '[' then (⟨.lbrackK, pos, pos + 1, ""⟩, pos + 1, rest)
    else if c = ']' then (⟨.rbrackK, pos, pos + 1, ""⟩, pos + 1, rest)
    else if c = '(' then (⟨.lparenK, pos, pos + 1, ""⟩, pos + 1, rest)
    else if c = ')' then (⟨.rparenK, pos, pos + 1, ""⟩, pos + 1, rest)
    else if c = '*' then (⟨.starK, pos, pos + 1, ""⟩, pos + 1, rest)
    else if c = '?' then (⟨.questionK, pos, pos + 1, ""⟩, pos + 1, rest)
    else if c = ',' then (⟨.commaK, pos, pos + 1, ""⟩, pos + 1, rest)
    else if c = ':' then (⟨.colonK, pos, pos + 1, ""⟩, pos + 1, rest)
    else if c = '.' then
      match rest with
      | '.' :: r2 => (⟨.dotdotK, pos, pos + 2, ""⟩, pos + 2, r2)
      | _ => (⟨.dotK, pos, pos + 1, ""⟩, pos + 1, rest)
    else if c = '=' then
      match rest with
      | '=' :: r2 => (⟨.eqK, pos, pos + 2, ""⟩, pos + 2, r2)
      | _ => (⟨.invalidK, pos, pos + 1, "unexpected equals sign"⟩, pos + 1, [])
    else if c = '!' then
      match rest with
      | '=' :: r2 => (⟨.neK, pos, pos + 2, ""⟩, pos + 2, r2)
      | _ => (⟨.notK, pos, pos + 1, ""⟩, pos + 1, rest)
    else if c = '<' then
      match rest with
      | '=' :: r2 => (⟨.leK, pos, pos + 2, ""⟩, pos + 2, r2)
      | _ => (⟨.ltK, pos, pos + 1, ""⟩, pos + 1, rest)
    else if c = '>' then
      match rest with
      | '=' :: r2 => (⟨.geK, pos, pos + 2, ""⟩, pos + 2, r2)
      | _ => (⟨.gtK, pos, pos + 1, ""⟩, pos + 1, rest)
    else if c = '&' then
      match rest with
      | '&' :: r2 => (⟨.andK, pos, pos + 2, ""⟩, pos + 2, r2)
      | _ => (⟨.invalidK, pos, pos + 1, "unexpected ampersand"⟩, pos + 1, [])
    else if c = '|' then
      match rest with
      | '|' :: r2 => (⟨.orK, pos, pos + 2, ""⟩, pos + 2, r2)
      | _ => (⟨.invalidK, pos, pos + 1, "unexpected pipe"⟩, pos + 1, [])
    else if c = '"' ∨ c = '\'' then scanStrAux c pos [] (pos + 1) rest
    else if c = '-' ∨ isDigitC c then scanNumber pos p.2
    else if isNameFirstC c then scanIdent pos p.2
    else (⟨.invalidK, pos, pos + 1, "unexpected character"⟩, pos + 1, [])

/-- The token-collection loop of `parser.New`: scan until EOF or an
invalid token (inclusive). -/
def tokenizeL : ℕ → ℕ → List Char → List Tok
  | 0, _, _ => []
  | f + 1, pos, cs =>
    let r := scanTok pos cs
    if r.1.kind = .eofK ∨ r.1.kind = .invalidK then [r.1]
    else r.1 :: tokenizeL f r.2.1 r.2.2

def tokenizeGo (src : String) : List Tok :=
  tokenizeL (src.length + 1) 0 src.toList

/-! ### The parser (`internal/parser`)

Embedded over the token list produced by the lexer; the read position is
threaded explicitly and every parsing function returns
`Except String (result × new-position)`. Error messages are abridged (no
claim depends on their text). The mutual recursion is fuel-indexed;
running out of fuel is an error, so a successful parse is unaffected. -/

def peekT (tk : List Tok) (pos : ℕ) : Tok :=
  tk.getD pos ⟨.eofK, 0, 0, ""⟩

def isAtEndP (tk : List Tok) (pos : ℕ) : Bool :=
  pos ≥ tk.length || (peekT tk pos).kind == .eofK

def checkP (tk : List Tok) (pos : ℕ) (k : TKind) : Bool :=
  !isAtEndP tk pos && (peekT tk pos).kind == k

def advanceP (tk : List Tok) (pos : ℕ) : ℕ :=
  if isAtEndP tk pos then pos else pos + 1

def prevT (tk : List Tok) (pos : ℕ) : Tok :=
  if 0 < pos ∧ pos ≤ tk.length then tk.getD (pos - 1) ⟨.invalidK, 0, 0, ""⟩
  else ⟨.invalidK, 0, 0, ""⟩

/-- `Parser.match` for a single kind: whether it matched, and the new
position. -/
def matchP (tk : List Tok) (pos : ℕ) (k : TKind) : Bool × ℕ :=
  if checkP tk pos k then (true, advanceP tk pos) else (false, pos)

/-- `Parser.error`: distinguishes end-of-input errors, as the Go code does. -/
def errP (tk : List Tok) (pos : ℕ) (msg : String) : String :=
  if (peekT tk pos).kind == .eofK then msg ++ " at end" else msg ++ " at position"

def digitsVal (ds : List Char) : ℤ :=
  ds.foldl (fun a c => a * 10 + ((c.toNat : ℤ) - 48)) 0

/-- `strconv.ParseInt(_, 10, 64)` on a lexer-validated integer lexeme:
yields the value, or `none` on 64-bit overflow. -/
def parseIntGoStr (s : String) : Option ℤ :=
  let cs := s.toList
  let p : Bool × List Char :=
    match cs with
    | '-' :: r => (true, r)
    | _ => (false, cs)
  let v : ℤ := digitsVal p.2
  let v := if p.1 then -v else v
  if v < -(2 ^ 63) ∨ 2 ^ 63 - 1 < v then none else some v

/-- `strconv.ParseFloat` on a lexer-validated number lexeme, exactly (the
Go code rounds to the nearest `float64`; no modelled claim depends on the
rounding). -/
def parseFloatGoStr (s : String) : ℚ :=
  let cs := s.toList
  let sp : Bool × List Char :=
    match cs with
    | '-' :: r => (true, r)
    | _ => (false, cs)
  let ip := takeDigitsL sp.2
  let fp : List Char × List Char :=
    match ip.2 with
    | '.' :: r => takeDigitsL r
    | _ => ([], ip.2)
  let ex : Bool × List Char :=
    match fp.2 with
    | 'e' :: '-' :: r => (true, (takeDigitsL r).1)
    | 'e' :: '+' :: r => (false, (takeDigitsL r).1)
    | 'e' :: r => (false, (takeDigitsL r).1)
    | 'E' :: '-' :: r => (true, (takeDigitsL r).1)
    | 'E' :: '+' :: r => (false, (takeDigitsL r).1)
    | 'E' :: r => (false, (takeDigitsL r).1)
    | _ => (false, [])
  let mant : ℚ := (digitsVal ip.1 : ℚ) + (digitsVal fp.1 : ℚ) / ((10 : ℚ) ^ fp.1.length)
  let e : ℤ := if ex.1 then -(digitsVal ex.2) else digitsVal ex.2
  let v := mant * (10 : ℚ) ^ e
  if sp.1 then -v else v

/-- The function registry `jsonpath.Parser.Parse` installs (the five
builtins of the `functions` package). -/
def lookupFn (s : String) : Option BuiltinFn :=
  if s == "length" then some .lengthF
  else if s == "count" then some .countF
  else if s == "match" then some .matchF
  else if s == "search" then some .searchF
  else if s == "value" then some .valueF
  else none

/-- `ast.ArgConvertsTo`. -/
def argConvertsTo (a : ArgType) (t : FuncType) : Bool :=
  match a with
  | .literalA => t == .valueT
  | .queryA => t == .valueT || t == .nodesT
  | .filterA => t == .nodesT
  | .logicalA => t == .logicalT
  | .functionA => true

/-- The `Validate` methods of the `functions` package builtins. -/
def validateFn (fn : BuiltinFn) (args : List ArgType) : Bool :=
  match fn with
  | .lengthF =>
    (match args with
     | [a] => argConvertsTo a .valueT
     | _ => false)
  | .countF =>
    (match args with
     | [a] => argConvertsTo a .nodesT
     | _ => false)
  | .matchF =>
    (match args with
     | [a, b] => argConvertsTo a .valueT && argConvertsTo b .valueT
     | _ => false)
  | .searchF =>
    (match args with
     | [a, b] => argConvertsTo a .valueT && argConvertsTo b .valueT
     | _ => false)
  | .valueF =>
    (match args with
     | [a] => argConvertsTo a .nodesT
     | _ => false)

/-- Parse-time classification of an argument expression
(`parseFunctionExpr`). -/
def argTypeOf : FnArg → ArgType
  | .fq q => if q.isSingular then .queryA else .filterA
  | .fcall _ => .functionA
  | .flit _ => .literalA

/-- The `QueryArg` resolution loop of `parseFunctionExpr`: probe each
singular-query slot with `FilterArg`; if the function still validates,
prefer the node list. The Go loop mutates `argTypes` in place, so later
probes see earlier updates; the recursion mirrors that. -/
def resolveQA (fn : BuiltinFn) : ℕ → List ArgType → ℕ → List ArgType
  | 0, ts, _ => ts
  | k + 1, ts, i =>
    let ts' :=
      if ts.getD i .literalA == .queryA && validateFn fn (ts.set i .filterA) then
        ts.set i .filterA
      else ts
    resolveQA fn k ts' (i + 1)

def checkCompOpP (tk : List Tok) (pos : ℕ) : Bool :=
  checkP tk pos .eqK || checkP tk pos .neK || checkP tk pos .ltK ||
    checkP tk pos .leK || checkP tk pos .gtK || checkP tk pos .geK

/-- `parseCompOp` (the fall-through default `Equal` is unreachable, as the
Go comment notes). -/
def parseCompOpP (tk : List Tok) (pos : ℕ) : CompOp × ℕ :=
  if checkP tk pos .eqK then (.eq, advanceP tk pos)
  else if checkP tk pos .neK then (.ne, advanceP tk pos)
  else if checkP tk pos .ltK then (.lt, advanceP tk pos)
  else if checkP tk pos .leK then (.le, advanceP tk pos)
  else if checkP tk pos .gtK then (.gt, advanceP tk pos)
  else if checkP tk pos .geK then (.ge, advanceP tk pos)
  else (.eq, pos)

/-- `parseLiteralValue`. -/
def parseLiteralValueP (tk : List Tok) (pos : ℕ) : Except String (GoVal × ℕ) :=
  let ms := matchP tk pos .stringK
  if ms.1 then .ok (.strV (prevT tk ms.2).value, ms.2)
  else
    let mi := matchP tk pos .intK
    if mi.1 then
      match parseIntGoStr (prevT tk mi.2).value with
      | some v => .ok (.intV v, mi.2)
      | none => .error "invalid integer"
    else
      let mn := matchP tk pos .numberK
      if mn.1 then .ok (.floatV (parseFloatGoStr (prevT tk mn.2).value), mn.2)
      else
        let mt := matchP tk pos .trueK
        if mt.1 then .ok (.boolV true, mt.2)
        else
          let mf := matchP tk pos .falseK
          if mf.1 then .ok (.boolV false, mf.2)
          else
            let mu := matchP tk pos .nullK
            if mu.1 then .ok (.jnullV, mu.2)
            else .error (errP tk pos "expected literal value")

/-- `parseSlice` (the selector's start component, when present, has
already been parsed). -/
def parseSliceP (tk : List Tok) (pos : ℕ) (start : ℤ) (hasStart : Bool) :
    Except String (Selector × ℕ) :=
  let maxIndex : ℤ := 9007199254740991
  let stage1 : Except String ((Bool × ℤ) × ℕ) :=
    if checkP tk pos .intK then
      let endTok := peekT tk pos
      let p1 := advanceP tk pos
      match parseIntGoStr endTok.value with
      | none => .error "invalid integer"
      | some e =>
        if e = 0 ∧ endTok.value.toList.headD ' ' = '-' then
          .error (errP tk pos "minus zero is not allowed")
        else if e < -maxIndex ∨ maxIndex < e then
          .error (errP tk pos "index out of range")
        else .ok ((true, e), p1)
    else .ok ((false, 0), pos)
  match stage1 with
  | .error e => .error e
  | .ok (ePart, p1) =>
    let mc := matchP tk p1 .colonK
    if mc.1 then
      if checkP tk mc.2 .intK then
        let stepTok := peekT tk mc.2
        let p2 := advanceP tk mc.2
        match parseIntGoStr stepTok.value with
        | none => .error "invalid integer"
        | some st =>
          if st = 0 ∧ stepTok.value.toList.headD ' ' = '-' then
            .error (errP tk mc.2 "minus zero is not allowed")
          else if st < -maxIndex ∨ maxIndex < st then
            .error (errP tk mc.2 "index out of range")
          else
            .ok (.slice ⟨start, ePart.2, st, hasStart, ePart.1, true⟩, p2)
      else .ok (.slice ⟨start, ePart.2, 0, hasStart, ePart.1, false⟩, mc.2)
    else .ok (.slice ⟨start, ePart.2, 0, hasStart, ePart.1, false⟩, p1)

/-- `parseIndexOrSlice`. -/
def parseIndexOrSliceP (tk : List Tok) (pos : ℕ) : Except String (Selector × ℕ) :=
  let maxIndex : ℤ := 9007199254740991
  let startTok := peekT tk pos
  let p1 := advanceP tk pos
  match parseIntGoStr startTok.value with
  | none => .error "invalid integer"
  | some start =>
    if start = 0 ∧ startTok.value.toList.headD ' ' = '-' then
      .error (errP tk p1 "minus zero is not allowed")
    else if start < -maxIndex ∨ maxIndex < start then
      .error (errP tk p1 "index out of range")
    else
      let mc := matchP tk p1 .colonK
      if mc.1 then parseSliceP tk mc.2 start true
      else .ok (.index start, p1)

mutual

/-- `parseSegments`: zero or more `..`-, `[`- or `.`-segments. -/
def parseSegmentsP (tk : List Tok) : ℕ → ℕ → Except String (List Segment × ℕ)
  | 0, _ => .error "parser fuel exhausted"
  | f + 1, pos =>
    if isAtEndP tk pos then .ok ([], pos)
    else
      let mdd := matchP tk pos .dotdotK
      if mdd.1 then
        match parseDescSegP tk f mdd.2 with
        | .error e => .error e
        | .ok (seg, p2) =>
          match parseSegmentsP tk f p2 with
          | .error e => .error e
          | .ok (rest, p3) => .ok (seg :: rest, p3)
      else
        let mlb := matchP tk pos .lbrackK
        if mlb.1 then
          match parseBracketedSelectionP tk f mlb.2 with
          | .error e => .error e
          | .ok (sels, p2) =>
            match parseSegmentsP tk f p2 with
            | .error e => .error e
            | .ok (rest, p3) => .ok (Segment.mk sels false :: rest, p3)
        else
          let md := matchP tk pos .dotK
          if md.1 then
            match parseDotChildP tk f md.2 with
            | .error e => .error e
            | .ok (sel, p2) =>
              match parseSegmentsP tk f p2 with
              | .error e => .error e
              | .ok (rest, p3) => .ok (Segment.mk [sel] false :: rest, p3)
          else .ok ([], pos)

termination_by structural f _ => f
/-- `parseDescendantSegment` (after `..`, which must be adjacent to what
follows). -/
def parseDescSegP (tk : List Tok) : ℕ → ℕ → Except String (Segment × ℕ)
  | 0, _ => .error "parser fuel exhausted"
  | f + 1, pos =>
    let dotDotTok := prevT tk pos
    if !isAtEndP tk pos ∧ dotDotTok.stop < (peekT tk pos).start then
      .error (errP tk pos "whitespace not allowed after dotdot")
    else
      let mlb := matchP tk pos .lbrackK
      if mlb.1 then
        match parseBracketedSelectionP tk f mlb.2 with
        | .error e => .error e
        | .ok (sels, p2) => .ok (Segment.mk sels true, p2)
      else
        let mst := matchP tk pos .starK
        if mst.1 then .ok (Segment.mk [.wildcard] true, mst.2)
        else if checkP tk pos .identK || checkP tk pos .trueK || checkP tk pos .falseK ||
            checkP tk pos .nullK then
          let t := peekT tk pos
          .ok (Segment.mk [.name t.value] true, advanceP tk pos)
        else .error (errP tk pos "expected bracket, star, or identifier after dotdot")

termination_by structural f _ => f
/-- `parseDotChild` (after `.`, which must be adjacent to what follows). -/
def parseDotChildP (tk : List Tok) : ℕ → ℕ → Except String (Selector × ℕ)
  | 0, _ => .error "parser fuel exhausted"
  | _ + 1, pos =>
    let dotTok := prevT tk pos
    if !isAtEndP tk pos ∧ dotTok.stop < (peekT tk pos).start then
      .error (errP tk pos "whitespace not allowed after dot")
    else
      let mst := matchP tk pos .starK
      if mst.1 then .ok (.wildcard, mst.2)
      else if checkP tk pos .identK || checkP tk pos .trueK || checkP tk pos .falseK ||
          checkP tk pos .nullK then
        let t := peekT tk pos
        .ok (.name t.value, advanceP tk pos)
      else .error (errP tk pos "expected star or identifier after dot")

/-- `parseBracketedSelection`: comma-separated selectors, closed by `]`. -/
def parseBracketedSelectionP (tk : List Tok) : ℕ → ℕ → Except String (List Selector × ℕ)
  | 0, _ => .error "parser fuel exhausted"
  | f + 1, pos =>
    match parseSelectorP tk f pos with
    | .error e => .error e
    | .ok (sel, p1) =>
      let mc := matchP tk p1 .commaK
      if mc.1 then
        match parseBracketedSelectionP tk f mc.2 with
        | .error e => .error e
        | .ok (rest, p3) => .ok (sel :: rest, p3)
      else
        let mrb := matchP tk p1 .rbrackK
        if mrb.1 then .ok ([sel], mrb.2)
        else .error (errP tk p1 "expected closing bracket or comma")

termination_by structural f _ => f
/-- `parseSelector`. -/
def parseSelectorP (tk : List Tok) : ℕ → ℕ → Except String (Selector × ℕ)
  | 0, _ => .error "parser fuel exhausted"
  | f + 1, pos =>
    let mst := matchP tk pos .starK
    if mst.1 then .ok (.wildcard, mst.2)
    else
      let mq := matchP tk pos .questionK
      if mq.1 then
        match parseLogicalOrP tk f mq.2 with
        | .error e => .error e
        | .ok (or, p2) => .ok (.filter (.mk or), p2)
      else if checkP tk pos .stringK then
        let t := peekT tk pos
        .ok (.name t.value, advanceP tk pos)
      else if checkP tk pos .intK then parseIndexOrSliceP tk pos
      else
        let mc := matchP tk pos .colonK
        if mc.1 then parseSliceP tk mc.2 0 false
        else .error (errP tk pos "expected selector")

termination_by structural f _ => f
/-- `parseLogicalOr`: `&&`-conjunctions separated by `||`. -/
def parseLogicalOrP (tk : List Tok) : ℕ → ℕ → Except String (List (List BasicExpr) × ℕ)
  | 0, _ => .error "parser fuel exhausted"
  | f + 1, pos =>
    match parseLogicalAndP tk f pos with
    | .error e => .error e
    | .ok (conj, p1) =>
      let mo := matchP tk p1 .orK
      if mo.1 then
        match parseLogicalOrP tk f mo.2 with
        | .error e => .error e
        | .ok (rest, p3) => .ok (conj :: rest, p3)
      else .ok ([conj], p1)

termination_by structural f _ => f
/-- `parseLogicalAnd`: basic expressions separated by `&&`. -/
def parseLogicalAndP (tk : List Tok) : ℕ → ℕ → Except String (List BasicExpr × ℕ)
  | 0, _ => .error "parser fuel exhausted"
  | f + 1, pos =>
    match parseBasicExprP tk f pos with
    | .error e => .error e
    | .ok (e1, p1) =>
      let ma := matchP tk p1 .andK
      if ma.1 then
        match parseLogicalAndP tk f ma.2 with
        | .error e => .error e
        | .ok (rest, p3) => .ok (e1 :: rest, p3)
      else .ok ([e1], p1)

termination_by structural f _ => f
/-- `parseBasicExpr`: negation, parentheses, function calls (bare tests
must be logical; logical results cannot be compared), query tests or
comparisons, and literal-led comparisons. -/
def parseBasicExprP (tk : List Tok) : ℕ → ℕ → Except String (BasicExpr × ℕ)
  | 0, _ => .error "parser fuel exhausted"
  | f + 1, pos =>
    let mnot := matchP tk pos .notK
    if mnot.1 then
      let mlp := matchP tk mnot.2 .lparenK
      if mlp.1 then
        match parseLogicalOrP tk f mlp.2 with
        | .error e => .error e
        | .ok (or, p2) =>
          let mrp := matchP tk p2 .rparenK
          if mrp.1 then .ok (.notParen or, mrp.2)
          else .error (errP tk p2 "expected closing parenthesis")
      else if checkP tk mnot.2 .identK then
        match parseFunctionExprP tk f mnot.2 with
        | .error e => .error e
        | .ok (fe, p2) =>
          if fe.resultType ≠ .logicalT then
            .error (errP tk p2 "only logical functions can be negated")
          else .ok (.negFunc fe, p2)
      else
        match parseFilterQueryP tk f mnot.2 with
        | .error e => .error e
        | .ok (q, p2) => .ok (.nonExistE q, p2)
    else
      let mlp := matchP tk pos .lparenK
      if mlp.1 then
        match parseLogicalOrP tk f mlp.2 with
        | .error e => .error e
        | .ok (or, p2) =>
          let mrp := matchP tk p2 .rparenK
          if mrp.1 then .ok (.paren or, mrp.2)
          else .error (errP tk p2 "expected closing parenthesis")
      else if checkP tk pos .identK then
        match parseFunctionExprP tk f pos with
        | .error e => .error e
        | .ok (fe, p2) =>
          if checkCompOpP tk p2 then
            if fe.resultType = .logicalT then
              .error (errP tk p2 "logical function result cannot be compared")
            else
              let op := parseCompOpP tk p2
              match parseCompValueP tk f op.2 with
              | .error e => .error e
              | .ok (rv, p3) => .ok (.comp (.funcV fe) op.1 rv, p3)
          else if fe.resultType ≠ .logicalT then
            .error (errP tk p2 "value function must be used in comparison")
          else .ok (.funcL fe, p2)
      else if checkP tk pos .atK || checkP tk pos .dollarK then
        parseTestOrComparisonP tk f pos
      else if checkP tk pos .stringK || checkP tk pos .intK || checkP tk pos .numberK ||
          checkP tk pos .trueK || checkP tk pos .falseK || checkP tk pos .nullK then
        parseComparisonFromLiteralP tk f pos
      else .error (errP tk pos "expected filter expression")

termination_by structural f _ => f
/-- `parseTestOrComparison`: a filter query, then either a comparison
(the query must be singular) or an existence test. -/
def parseTestOrComparisonP (tk : List Tok) : ℕ → ℕ → Except String (BasicExpr × ℕ)
  | 0, _ => .error "parser fuel exhausted"
  | f + 1, pos =>
    match parseFilterQueryP tk f pos with
    | .error e => .error e
    | .ok (q, p1) =>
      if checkCompOpP tk p1 then
        if !q.isSingular then
          .error (errP tk p1 "non-singular query is not allowed in comparison")
        else
          let op := parseCompOpP tk p1
          match parseCompValueP tk f op.2 with
          | .error e => .error e
          | .ok (rv, p3) => .ok (.comp (.query q) op.1 rv, p3)
      else .ok (.existE q, p1)

termination_by structural f _ => f
/-- `parseComparisonFromLiteral`. -/
def parseComparisonFromLiteralP (tk : List Tok) : ℕ → ℕ → Except String (BasicExpr × ℕ)
  | 0, _ => .error "parser fuel exhausted"
  | f + 1, pos =>
    match parseLiteralValueP tk pos with
    | .error e => .error e
    | .ok (v, p1) =>
      if !checkCompOpP tk p1 then .error (errP tk p1 "expected comparison operator")
      else
        let op := parseCompOpP tk p1
        match parseCompValueP tk f op.2 with
        | .error e => .error e
        | .ok (rv, p3) => .ok (.comp (.lit v) op.1 rv, p3)

termination_by structural f _ => f
/-- `parseFunctionExpr`: name adjacent to `(`, arguments, registry
lookup, `Validate`, then the `QueryArg`/`FilterArg` resolution pass. -/
def parseFunctionExprP (tk : List Tok) : ℕ → ℕ → Except String (FuncExpr × ℕ)
  | 0, _ => .error "parser fuel exhausted"
  | f + 1, pos =>
    let nameTok := peekT tk pos
    let p1 := advanceP tk pos
    if !isAtEndP tk p1 ∧ nameTok.stop < (peekT tk p1).start then
      .error (errP tk p1 "whitespace not allowed between function name and parenthesis")
    else
      let mlp := matchP tk p1 .lparenK
      if !mlp.1 then .error (errP tk p1 "expected parenthesis after function name")
      else
        let argsRes : Except String (List FnArg × ℕ) :=
          if checkP tk mlp.2 .rparenK then .ok ([], mlp.2)
          else parseFnArgsP tk f mlp.2
        match argsRes with
        | .error e => .error e
        | .ok (args, p3) =>
          let mrp := matchP tk p3 .rparenK
          if !mrp.1 then .error (errP tk p3 "expected closing parenthesis")
          else
            match lookupFn nameTok.value with
            | none => .error "unknown function"
            | some fn =>
              let argTypes := args.map argTypeOf
              if !validateFn fn argTypes then .error "invalid function argument types"
              else .ok (.mk fn (resolveQA fn argTypes.length argTypes 0) args, mrp.2)

termination_by structural f _ => f
/-- The argument loop of `parseFunctionExpr`. -/
def parseFnArgsP (tk : List Tok) : ℕ → ℕ → Except String (List FnArg × ℕ)
  | 0, _ => .error "parser fuel exhausted"
  | f + 1, pos =>
    match parseFunctionArgP tk f pos with
    | .error e => .error e
    | .ok (a, p1) =>
      let mc := matchP tk p1 .commaK
      if mc.1 then
        match parseFnArgsP tk f mc.2 with
        | .error e => .error e
        | .ok (rest, p3) => .ok (a :: rest, p3)
      else .ok ([a], p1)

termination_by structural f _ => f
/-- `parseFunctionArg`. -/
def parseFunctionArgP (tk : List Tok) : ℕ → ℕ → Except String (FnArg × ℕ)
  | 0, _ => .error "parser fuel exhausted"
  | f + 1, pos =>
    if checkP tk pos .atK || checkP tk pos .dollarK then
      match parseFilterQueryP tk f pos with
      | .error e => .error e
      | .ok (q, p1) => .ok (.fq q, p1)
    else if checkP tk pos .identK then
      match parseFunctionExprP tk f pos with
      | .error e => .error e
      | .ok (fe, p1) => .ok (.fcall fe, p1)
    else
      match parseLiteralValueP tk pos with
      | .error e => .error e
      | .ok (v, p1) => .ok (.flit v, p1)

termination_by structural f _ => f
/-- `parseFilterQuery`: `@` or `$` followed by segments. -/
def parseFilterQueryP (tk : List Tok) : ℕ → ℕ → Except String (PathQuery × ℕ)
  | 0, _ => .error "parser fuel exhausted"
  | f + 1, pos =>
    let md := matchP tk pos .dollarK
    let m2 := if md.1 then md else matchP tk pos .atK
    if !m2.1 then .error (errP tk pos "expected dollar or at")
    else
      let isRoot := (prevT tk m2.2).kind == .dollarK
      match parseSegmentsP tk f m2.2 with
      | .error e => .error e
      | .ok (segs, p2) => .ok (.mk isRoot segs, p2)

termination_by structural f _ => f
/-- `parseCompValue`: a function call (must not be logical), a filter
query (must be singular), or a literal. -/
def parseCompValueP (tk : List Tok) : ℕ → ℕ → Except String (CompValue × ℕ)
  | 0, _ => .error "parser fuel exhausted"
  | f + 1, pos =>
    if checkP tk pos .identK then
      match parseFunctionExprP tk f pos with
      | .error e => .error e
      | .ok (fe, p1) =>
        if fe.resultType = .logicalT then
          .error (errP tk p1 "logical function result cannot be compared")
        else .ok (.funcV fe, p1)
    else if checkP tk pos .atK || checkP tk pos .dollarK then
      match parseFilterQueryP tk f pos with
      | .error e => .error e
      | .ok (q, p1) =>
        if !q.isSingular then
          .error (errP tk p1 "non-singular query is not allowed in comparison")
        else .ok (.query q, p1)
    else
      match parseLiteralValueP tk pos with
      | .error e => .error e
      | .ok (v, p1) => .ok (.lit v, p1)

termination_by structural f _ => f
end

/-- `Parser.Parse`: root identifier, segments, end of input. -/
def parseQueryP (tk : List Tok) (f : ℕ) : Except String PathQuery :=
  let md := matchP tk 0 .dollarK
  let m2 := if md.1 then md else matchP tk 0 .atK
  if !m2.1 then .error (errP tk 0 "expected dollar or at")
  else
    let isRoot := (prevT tk m2.2).kind == .dollarK
    match parseSegmentsP tk f m2.2 with
    | .error e => .error e
    | .ok (segs, p2) =>
      if !isAtEndP tk p2 then .error (errP tk p2 "unexpected token after path")
      else .ok (.mk isRoot segs)

/-- `jsonpath.Parse` / `Parser.Parse` end to end: lex (`parser.New`
rejects a trailing invalid token), reject leading/trailing blank space,
then parse. -/
def parseGo (src : String) : Except String PathQuery :=
  let toks := tokenizeGo src
  if (toks.getLastD ⟨.eofK, 0, 0, ""⟩).kind == .invalidK then .error "lexer error"
  else
    let cs := src.toList
    if (match cs.head? with | some c => isBlankC c | none => false) then
      .error "leading whitespace not allowed"
    else if (match cs.getLast? with | some c => isBlankC c | none => false) then
      .error "trailing whitespace not allowed"
    else parseQueryP toks (src.length * 4 + 16)

/-! ### C6: static rules enforced by the parser -/

/-- A comparison operand the RFC allows: a literal, a singular query, or a
non-logical function call. -/
def CompValue.goodOperand : CompValue → Bool
  | .query q => q.isSingular
  | .funcV fe => fe.resultType != .logicalT
  | .lit _ => true

/-- The claim's conditions on a parsed `BasicExpr`: comparisons have good
operands on both sides, and a bare function-call test is logical-typed. -/
def BasicExpr.goodTest : BasicExpr → Bool
  | .comp l _ r => l.goodOperand && r.goodOperand
  | .funcL fe => fe.resultType == .logicalT
  | _ => true

theorem parseCompValueP_good (tk : List Tok) (f : ℕ) (pos : ℕ) (cv : CompValue) (p' : ℕ)
    (h : parseCompValueP tk f pos = .ok (cv, p')) : cv.goodOperand = true := by
  cases f with
  | zero => simp [parseCompValueP] at h
  | succ f =>
    simp only [parseCompValueP] at h
    split at h
    · -- function-call operand
      split at h
      · simp at h
      · split at h
        · simp at h
        · rename_i hres
          injection h with h1
          injection h1 with hcv hp
          subst hcv
          simp only [CompValue.goodOperand, bne_iff_ne, ne_eq]
          simpa using hres
    · split at h
      · -- query operand
        split at h
        · simp at h
        · split at h
          · simp at h
          · rename_i hsing
            injection h with h1
            injection h1 with hcv hp
            subst hcv
            simp only [CompValue.goodOperand]
            simpa using hsing
      · -- literal operand
        split at h
        · simp at h
        · injection h with h1
          injection h1 with hcv hp
          subst hcv
          rfl

theorem parseTestOrComparisonP_good (tk : List Tok) (f : ℕ) (pos : ℕ) (e : BasicExpr)
    (p' : ℕ) (h : parseTestOrComparisonP tk f pos = .ok (e, p')) : e.goodTest = true := by
  cases f with
  | zero => simp [parseTestOrComparisonP] at h
  | succ f =>
    simp only [parseTestOrComparisonP] at h
    split at h
    · simp at h
    · split at h
      · split at h
        · simp at h
        · rename_i hsing
          split at h
          · simp at h
          · rename_i rv p3 heq
            injection h with h1
            injection h1 with he hp
            subst he
            simp only [BasicExpr.goodTest, Bool.and_eq_true]
            refine ⟨?_, parseCompValueP_good tk f _ rv p3 heq⟩
            simp only [CompValue.goodOperand]
            simpa using hsing
      · injection h with h1
        injection h1 with he hp
        subst he
        rfl

theorem parseComparisonFromLiteralP_good (tk : List Tok) (f : ℕ) (pos : ℕ) (e : BasicExpr)
    (p' : ℕ) (h : parseComparisonFromLiteralP tk f pos = .ok (e, p')) : e.goodTest = true := by
  cases f with
  | zero => simp [parseComparisonFromLiteralP] at h
  | succ f =>
    simp only [parseComparisonFromLiteralP] at h
    split at h
    · simp at h
    · split at h
      · simp at h
      · split at h
        · simp at h
        · rename_i rv p3 heq
          injection h with h1
          injection h1 with he hp
          subst he
          simp only [BasicExpr.goodTest, Bool.and_eq_true]
          exact ⟨rfl, parseCompValueP_good tk f _ rv p3 heq⟩

theorem parseBasicExprP_good (tk : List Tok) (f : ℕ) (pos : ℕ) (e : BasicExpr)
    (p' : ℕ) (h : parseBasicExprP tk f pos = .ok (e, p')) : e.goodTest = true := by
  cases f with
  | zero => simp [parseBasicExprP] at h
  | succ f =>
    simp only [parseBasicExprP] at h
    split at h
    · -- negation branch
      split at h
      · -- not-paren
        split at h
        · simp at h
        · split at h
          · injection h with h1
            injection h1 with he hp
            subst he
            rfl
          · simp at h
      · split at h
        · -- negated function call
          split at h
          · simp at h
          · split at h
            · simp at h
            · injection h with h1
              injection h1 with he hp
              subst he
              rfl
        · -- negated existence test
          split at h
          · simp at h
          · injection h with h1
            injection h1 with he hp
            subst he
            rfl
    · split at h
      · -- parenthesised
        split at h
        · simp at h
        · split at h
          · injection h with h1
            injection h1 with he hp
            subst he
            rfl
          · simp at h
      · split at h
        · -- function call, possibly compared
          split at h
          · simp at h
          · split at h
            · -- comparison with function on the left
              split at h
              · simp at h
              · rename_i hlog
                split at h
                · simp at h
                · rename_i rv p3 heq
                  injection h with h1
                  injection h1 with he hp
                  subst he
                  simp only [BasicExpr.goodTest, Bool.and_eq_true]
                  refine ⟨?_, parseCompValueP_good tk f _ rv p3 heq⟩
                  simp only [CompValue.goodOperand, bne_iff_ne, ne_eq]
                  simpa using hlog
            · -- bare function test: must be logical
              split at h
              · simp at h
              · rename_i hnl
                injection h with h1
                injection h1 with he hp
                subst he
                simp only [BasicExpr.goodTest, beq_iff_eq]
                simpa using hnl
        · split at h
          · exact parseTestOrComparisonP_good tk f pos e p' h
          · split at h
            · exact parseComparisonFromLiteralP_good tk f pos e p' h
            · simp at h

/-- C3: reparsing the canonical form of a compiled query does not always
succeed.  `parseGo` accepts the filter query shown here, the canonical
writer renders its filter selector as a bare question mark, and the
resulting canonical string is itself rejected by `parseGo`, so no query
with the original evaluation behaviour can be recovered from it. -/
theorem c3_filter_canonical_string_fails_reparse :
    (parseGo "$[?@.price < 10]").toOption.map pathString = some "$[?]" ∧
    (parseGo "$[?]").toOption = none :=
  ⟨rfl, rfl⟩

/-- C6: the parser enforces the three static checks.  Every comparison
operand it produces is good — a filter query used as an operand is
singular, and a function call used as an operand is not logical-typed —
and every basic expression it produces is a good test — a bare function
call standing as a test is logical-typed.  Concretely, the three
end-to-end inputs violating each check in turn are rejected. -/
theorem c6_static_checks :
    (∀ tk f pos cv p, parseCompValueP tk f pos = .ok (cv, p) →
      cv.goodOperand = true) ∧
    (∀ tk f pos e p, parseBasicExprP tk f pos = .ok (e, p) →
      e.goodTest = true) ∧
    (parseGo "$[?@.a == @.b.*]").toOption = none ∧
    (parseGo "$[?length(@)]").toOption = none ∧
    (parseGo "$[?@.a == match(@.b, \"x\")]").toOption = none :=
  ⟨parseCompValueP_good, parseBasicExprP_good, rfl, rfl, rfl⟩

/-- The parser does return comparison operands on real input: on the
tokens of the singular query that compares as an operand, the first
conjunct of the static-check theorem applies and certifies goodness. -/
theorem c6_static_checks_witness :
    (CompValue.query (.mk false [.mk [.name "a"] false])).goodOperand = true :=
  c6_static_checks.1 (tokenizeGo "@.a") 20 0
    (.query (.mk false [.mk [.name "a"] false])) 3 rfl

end JPGo
